import Mathlib

/-!
Formal model of the report-generation core of the `acme-accounting` repository
(`src/reports/reports.service.ts`), together with theorems settling the
specification's claims about it.

JavaScript numbers are idealised as exact rationals plus an explicit `NaN`
value (`JsNum`); the cache `Record<string, ...>` objects are modelled as
insertion-ordered association lists, matching JS property-iteration order for
the non-integer string keys used by the service (file names and account names).
-/

set_option maxHeartbeats 1000000
set_option maxRecDepth 100000

namespace Acme

/-- A JavaScript number as produced by `parseFloat` and propagated through the
report arithmetic: either `NaN` or an exact rational value. -/
inductive JsNum where
  | nan : JsNum
  | num : ℚ → JsNum
  deriving DecidableEq, Repr

/-- Exact rational addition, expressed through `Rat.divInt` so that the
kernel can evaluate it on concrete inputs (Batteries marks `Rat.add`
irreducible); provably equal to `+` (`qAdd_eq`). -/
def qAdd (a b : ℚ) : ℚ :=
  Rat.divInt (a.num * (b.den : ℤ) + b.num * (a.den : ℤ)) ((a.den : ℤ) * (b.den : ℤ))

/-- Exact rational negation through `Rat.divInt`; provably equal to `Neg.neg`. -/
def qNeg (a : ℚ) : ℚ := Rat.divInt (-a.num) (a.den : ℤ)

/-- Exact rational subtraction through `Rat.divInt`; provably equal to `-`. -/
def qSub (a b : ℚ) : ℚ := qAdd a (qNeg b)

/-- Exact rational multiplication through `Rat.divInt`; provably equal to `*`. -/
def qMul (a b : ℚ) : ℚ := Rat.divInt (a.num * b.num) ((a.den : ℤ) * (b.den : ℤ))

/-- `10 ^ e` for an integer exponent, through `Rat.divInt`. -/
def qPow10 (e : ℤ) : ℚ :=
  if 0 ≤ e then Rat.divInt ((10 : ℤ) ^ e.toNat) 1 else Rat.divInt 1 ((10 : ℤ) ^ (-e).toNat)

/-- JS addition: `NaN` is absorbing, numbers add exactly. -/
def JsNum.add : JsNum → JsNum → JsNum
  | .num a, .num b => .num (qAdd a b)
  | _, _ => .nan

/-- JS subtraction: `NaN` is absorbing, numbers subtract exactly. -/
def JsNum.sub : JsNum → JsNum → JsNum
  | .num a, .num b => .num (qSub a b)
  | _, _ => .nan

/-- JS falsiness of a number: `0` and `NaN` are falsy (`!x` is true). -/
def JsNum.isFalsy : JsNum → Bool
  | .nan => true
  | .num q => q = 0

/-- Whether the value is an actual number (not `NaN`). -/
def JsNum.isNum : JsNum → Bool
  | .nan => false
  | .num _ => true

/-- JS `x || 0`: falsy values (`0`, `NaN`) collapse to `0`. -/
def JsNum.orZero : JsNum → ℚ
  | .nan => 0
  | .num q => q

instance : Zero JsNum := ⟨JsNum.num 0⟩

instance : Add JsNum := ⟨JsNum.add⟩

instance : AddCommMonoid JsNum where
  add_assoc := by
    intro a b c
    show (a.add b).add c = a.add (b.add c)
    have hq : ∀ x y : ℚ, qAdd x y = x + y := by
      intro x y
      rw [qAdd, Rat.divInt_eq_div]
      push_cast
      have hx : ((x.den : ℚ)) ≠ 0 := Nat.cast_ne_zero.mpr x.den_nz
      have hy : ((y.den : ℚ)) ≠ 0 := Nat.cast_ne_zero.mpr y.den_nz
      conv_rhs => rw [← Rat.num_div_den x, ← Rat.num_div_den y]
      rw [div_add_div _ _ hx hy]
      ring_nf
    cases a <;> cases b <;> cases c <;> simp [JsNum.add, hq] <;> ring
  zero_add := by
    intro a
    show (JsNum.num 0).add a = a
    have hq : ∀ x y : ℚ, qAdd x y = x + y := by
      intro x y
      rw [qAdd, Rat.divInt_eq_div]
      push_cast
      have hx : ((x.den : ℚ)) ≠ 0 := Nat.cast_ne_zero.mpr x.den_nz
      have hy : ((y.den : ℚ)) ≠ 0 := Nat.cast_ne_zero.mpr y.den_nz
      conv_rhs => rw [← Rat.num_div_den x, ← Rat.num_div_den y]
      rw [div_add_div _ _ hx hy]
      ring_nf
    cases a <;> simp [JsNum.add, hq]
  add_zero := by
    intro a
    show a.add (JsNum.num 0) = a
    have hq : ∀ x y : ℚ, qAdd x y = x + y := by
      intro x y
      rw [qAdd, Rat.divInt_eq_div]
      push_cast
      have hx : ((x.den : ℚ)) ≠ 0 := Nat.cast_ne_zero.mpr x.den_nz
      have hy : ((y.den : ℚ)) ≠ 0 := Nat.cast_ne_zero.mpr y.den_nz
      conv_rhs => rw [← Rat.num_div_den x, ← Rat.num_div_den y]
      rw [div_add_div _ _ hx hy]
      ring_nf
    cases a <;> simp [JsNum.add, hq]
  add_comm := by
    intro a b
    show a.add b = b.add a
    have hq : ∀ x y : ℚ, qAdd x y = x + y := by
      intro x y
      rw [qAdd, Rat.divInt_eq_div]
      push_cast
      have hx : ((x.den : ℚ)) ≠ 0 := Nat.cast_ne_zero.mpr x.den_nz
      have hy : ((y.den : ℚ)) ≠ 0 := Nat.cast_ne_zero.mpr y.den_nz
      conv_rhs => rw [← Rat.num_div_den x, ← Rat.num_div_den y]
      rw [div_add_div _ _ hx hy]
      ring_nf
    cases a <;> cases b <;> simp [JsNum.add, hq] <;> ring
  nsmul := nsmulRec

/-- The characters skipped by `parseFloat` and removed by `String.prototype.trim`
(ASCII whitespace; the service's data never contains the further Unicode
space characters that JS also strips). -/
def isJsSpace (c : Char) : Bool :=
  c = ' ' || c = '\t' || c = '\n' || c = '\r' || c = '\x0b' || c = '\x0c'

/-- Decimal digit character, as produced by JS number-to-string conversion. -/
def digitChar (d : ℕ) : Char :=
  match d with
  | 0 => '0' | 1 => '1' | 2 => '2' | 3 => '3' | 4 => '4'
  | 5 => '5' | 6 => '6' | 7 => '7' | 8 => '8' | 9 => '9'
  | _ => '*'

/-- Value of a digit character. -/
def digVal (c : Char) : ℕ := c.toNat - 48

/-- Value of a run of decimal digit characters (most significant first). -/
def digitsToNat (l : List Char) : ℕ := l.foldl (fun a c => 10 * a + digVal c) 0

/-- Exponent part of a JS `StrDecimalLiteral` (`e`/`E`, optional sign, digits);
an absent or digit-less exponent contributes `0` (JS ignores the dangling
`e`, as in `parseFloat("1e") === 1`). -/
def expVal (cs : List Char) : ℤ :=
  match cs with
  | 'e' :: rest | 'E' :: rest =>
    match rest with
    | '+' :: r =>
      let d := r.takeWhile Char.isDigit
      if d.isEmpty then 0 else (digitsToNat d : ℤ)
    | '-' :: r =>
      let d := r.takeWhile Char.isDigit
      if d.isEmpty then 0 else -(digitsToNat d : ℤ)
    | r =>
      let d := r.takeWhile Char.isDigit
      if d.isEmpty then 0 else (digitsToNat d : ℤ)
  | _ => 0

/-- Unsigned part of `parseFloat`: longest prefix `digits [. digits] [exp]` or
`. digits [exp]`; `none` when no digits are present at all. -/
def parseUnsigned (cs : List Char) : Option ℚ :=
  let ip := cs.takeWhile Char.isDigit
  let rest := cs.dropWhile Char.isDigit
  let fp :=
    match rest with
    | '.' :: r => r.takeWhile Char.isDigit
    | _ => []
  let rest2 :=
    match rest with
    | '.' :: r => r.dropWhile Char.isDigit
    | _ => rest
  if ip.isEmpty && fp.isEmpty then none
  else
    some (qMul
      (Rat.divInt ((digitsToNat ip : ℤ) * (10 : ℤ) ^ fp.length + (digitsToNat fp : ℤ))
        ((10 : ℤ) ^ fp.length))
      (qPow10 (expVal rest2)))

/-- Model of JS `parseFloat`: skip leading whitespace, optional sign, then the
longest valid decimal-literal prefix; `NaN` when no prefix parses. (The
`Infinity` literal, never present in ledger data, is not modelled.) -/
def parseFloat (s : String) : JsNum :=
  match s.toList.dropWhile isJsSpace with
  | '+' :: r =>
    match parseUnsigned r with
    | some q => .num q
    | none => .nan
  | '-' :: r =>
    match parseUnsigned r with
    | some q => .num (qNeg q)
    | none => .nan
  | r =>
    match parseUnsigned r with
    | some q => .num q
    | none => .nan

/-- Decimal digits of `n`, most significant first, accumulated onto `acc`;
structural recursion on a fuel bound (`n` itself suffices) so the kernel can
evaluate it. -/
def natDigitsAux (fuel : ℕ) (n : ℕ) (acc : List Char) : List Char :=
  match fuel with
  | 0 => acc
  | f + 1 => if n = 0 then acc else natDigitsAux f (n / 10) (digitChar (n % 10) :: acc)

/-- JS decimal rendering of a natural number (`Number.prototype.toString`). -/
def natDecimal (n : ℕ) : String :=
  if n = 0 then "0" else ⟨natDigitsAux n n []⟩

/-- JS decimal rendering of an integer. -/
def intDecimal (i : ℤ) : String :=
  if i < 0 then "-" ++ natDecimal (-i).toNat else natDecimal i.toNat

/-- Two-digit zero-padded rendering of `n < 100`. -/
def pad2 (n : ℕ) : String :=
  if n < 10 then "0" ++ natDecimal n else natDecimal n

/-- `toFixed(2)` for a nonnegative rational: round half-up to an integer number
of hundredths and render with exactly two decimals (ECMA `Number.toFixed`,
idealised to exact arithmetic). -/
def fix2Nat (q : ℚ) : String :=
  let n := (Rat.floor (qAdd (qMul q (Rat.divInt 100 1)) (Rat.divInt 1 2))).toNat
  natDecimal (n / 100) ++ "." ++ pad2 (n % 100)

/-- Model of JS `x.toFixed(2)`: `"NaN"` for `NaN`, otherwise sign followed by
the magnitude rounded half-up to two decimals. -/
def JsNum.toFixed2 : JsNum → String
  | .nan => "NaN"
  | .num q => if q < 0 then "-" ++ fix2Nat (qNeg q) else fix2Nat q

/-- `toFixed(2)` applied to a plain (already numeric) rational value. -/
def qToFixed2 (q : ℚ) : String := (JsNum.num q).toFixed2

/-- Model of JS `String.prototype.trim` on a character list. -/
def trimList (l : List Char) : List Char :=
  ((l.dropWhile isJsSpace).reverse.dropWhile isJsSpace).reverse

/-- Model of JS `String.prototype.trim`. -/
def jsTrim (s : String) : String := ⟨trimList s.toList⟩

/-- Split a character list at every occurrence of `sep`, JS
`String.prototype.split` style: splitting the empty list yields one empty
piece, and separators at the ends yield empty pieces. `cur` is the current
piece accumulated in reverse. -/
def splitOnCharAux (sep : Char) : List Char → List Char → List (List Char)
  | [], cur => [cur.reverse]
  | c :: cs, cur =>
    if c = sep then cur.reverse :: splitOnCharAux sep cs []
    else splitOnCharAux sep cs (c :: cur)

/-- Model of JS `s.split(sep)` for a one-character separator (the only kind
the service uses: `'\n'` and `','`). In particular `"".split(sep) = [""]`. -/
def jsSplit (s : String) (sep : Char) : List String :=
  (splitOnCharAux sep s.toList []).map (fun l => ⟨l⟩)

/-- The Record Parser (`loadFiles`, lines 40-43): `content.trim().split('\n')
.map(line => line.split(','))`. -/
def parseContent (content : String) : List (List String) :=
  (jsSplit (jsTrim content) '\n').map (fun line => jsSplit line ',')

/-- Neither the first nor the last character of `s` is whitespace (so
`trim()` leaves `s` unchanged). -/
def noEdgeWhitespace (s : String) : Prop :=
  s.toList.head?.all (fun c => !(isJsSpace c)) = true
  ∧ s.toList.getLast?.all (fun c => !(isJsSpace c)) = true

/-- A parsed ledger row is one line's list of comma-separated fields. -/
abbrev Row := List (List String)

/-- The Ledger Cache: file name to parsed rows, in insertion order (which for
the concurrently loaded files is load-completion order). -/
abbrev Cache := List (String × List (List String))

/-- Suffix test used by the File Loader's `.csv` filter. -/
def endsWithCsv (name : String) : Bool :=
  ".csv".toList.isSuffixOf name.toList

/-- The File Loader (`loadFiles`): filter the directory listing to `.csv`
files and parse each one. The resulting list order is the order in which the
concurrent reads complete; `loadCache` returns the directory-listing order,
and any permutation of it is a possible cache (see `possibleCacheOf`). -/
def loadCache (dir : List (String × String)) : Cache :=
  (dir.filter (fun e => endsWithCsv e.1)).map (fun e => (e.1, parseContent e.2))

/-- A cache the concurrent loader can produce for `dir`: the parsed files in
some completion order. -/
def possibleCacheOf (dir : List (String × String)) (c : Cache) : Prop :=
  c.Perm (loadCache dir)

instance (dir : List (String × String)) (c : Cache) : Decidable (possibleCacheOf dir c) := by
  unfold possibleCacheOf
  infer_instance

/-- The account field of a row: `const [, account] = line`. A missing field is
`undefined`, which JS coerces to the property key `"undefined"`. -/
def acct (line : List String) : String := line.getD 1 "undefined"

/-- An amount field of a row: `parseFloat(field || '0')`. A missing
(`undefined`) or empty field falls back to `'0'`; any other string goes to
`parseFloat` unchanged. -/
def fieldOr0 (line : List String) (i : ℕ) : JsNum :=
  let f := line.getD i ""
  parseFloat (if f = "" then "0" else f)

/-- One row's contribution `parseFloat(debit || '0') - parseFloat(credit || '0')`. -/
def rowDC (line : List String) : JsNum := (fieldOr0 line 3).sub (fieldOr0 line 4)

/-- Association-list lookup (JS property read). -/
def lookupBal : List (String × JsNum) → String → Option JsNum
  | [], _ => none
  | (k, v) :: t, a => if k = a then some v else lookupBal t a

/-- Association-list write (JS property assignment): update in place when the
key exists, append when it does not — matching JS insertion order for
non-integer string keys. -/
def updateBal : List (String × JsNum) → String → JsNum → List (String × JsNum)
  | [], a, v => [(a, v)]
  | (k, w) :: t, a, v => if k = a then (a, v) :: t else (k, w) :: updateBal t a v

/-- `if (!map[k]) map[k] = 0` — the value a falsy (absent, `0` or `NaN`) entry
is reset to before accumulation. -/
def resetFalsy (o : Option JsNum) : JsNum :=
  match o with
  | some b => if b.isFalsy then .num 0 else b
  | none => .num 0

/-- `if (!map[k]) { map[k] = 0 }; map[k] += x` — the accumulation step shared
by the Account Balances and Yearly Cash Flow jobs. -/
def bump (m : List (String × JsNum)) (k : String) (x : JsNum) : List (String × JsNum) :=
  updateBal m k ((resetFalsy (lookupBal m k)).add x)

/-- One row of the Account Balances job (lines 82-88). -/
def accountsStep (m : List (String × JsNum)) (line : List String) : List (String × JsNum) :=
  bump m (acct line) (rowDC line)

/-- The accumulated `accountBalances` map over all cached files (lines 80-89). -/
def accountBalancesOf (cache : Cache) : List (String × JsNum) :=
  cache.foldl (fun m e => e.2.foldl accountsStep m) []

/-- The full `accounts.csv` contents (lines 91-96). -/
def accountsOutput (cache : Cache) : String :=
  String.intercalate "\n"
    ("Account,Balance" ::
      (accountBalancesOf cache).map (fun p => p.1 ++ "," ++ p.2.toFixed2))

/-- Gregorian leap-year rule, used by ISO date validation. -/
def isLeapYear (y : ℕ) : Bool :=
  (y % 4 = 0 && y % 100 ≠ 0) || y % 400 = 0

/-- Days in a month, for ISO date validation. -/
def daysInMonth (y m : ℕ) : ℕ :=
  if m = 1 || m = 3 || m = 5 || m = 7 || m = 8 || m = 10 || m = 12 then 31
  else if m = 4 || m = 6 || m = 9 || m = 11 then 30
  else if isLeapYear y then 29 else 28

/-- Model of `new Date(s).getFullYear()` for the calendar-date ISO form
`YYYY-MM-DD` used by ledger dates (evaluated in a UTC environment, so the
year is the ISO year); any other input is an invalid date, i.e. `NaN`
(`none`). -/
def dateYear (s : String) : Option ℤ :=
  match s.toList with
  | [y1, y2, y3, y4, '-', m1, m2, '-', d1, d2] =>
    if (y1.isDigit && y2.isDigit && y3.isDigit && y4.isDigit
        && m1.isDigit && m2.isDigit && d1.isDigit && d2.isDigit) then
      let y := digitsToNat [y1, y2, y3, y4]
      let m := digitsToNat [m1, m2]
      let d := digitsToNat [d1, d2]
      if 1 ≤ m && m ≤ 12 && 1 ≤ d && d ≤ daysInMonth y m then some (y : ℤ) else none
    else none
  | _ => none

/-- The property key `cashByYear[year]` is written to: the number
`getFullYear()` coerced to a string (`"NaN"` for an invalid date). -/
def yearKey (date : String) : String :=
  match dateYear date with
  | some y => intDecimal y
  | none => "NaN"

/-- UTF-16 code-unit lexicographic `<` on strings (the comparison used by the
default `Array.prototype.sort` comparator; for the BMP characters appearing
in year keys, code units coincide with code points). -/
def strLtB : List Char → List Char → Bool
  | [], [] => false
  | [], _ :: _ => true
  | _ :: _, [] => false
  | a :: as, b :: bs =>
    if a.toNat < b.toNat then true
    else if b.toNat < a.toNat then false
    else strLtB as bs

/-- `≤` on strings induced by `strLtB`. -/
def strLeB (s t : String) : Bool := !(strLtB t.toList s.toList)

/-- Insert into a `strLeB`-sorted list of strings. -/
def insertStr (x : String) : List String → List String
  | [] => [x]
  | y :: ys => if strLeB x y then x :: y :: ys else y :: insertStr x ys

/-- Model of the default `Array.prototype.sort()` on string keys (lines
131-132): any comparison sort of distinct keys yields the unique
lexicographically ascending arrangement; insertion sort computes it. -/
def sortStrings (l : List String) : List String := l.foldr insertStr []

/-- One row of the Yearly Cash Flow job (lines 116-125): only rows whose
account is exactly `"Cash"` are bucketed, keyed by the stringified
`getFullYear()` of the date field. -/
def yearlyStep (m : List (String × JsNum)) (line : List String) : List (String × JsNum) :=
  if acct line = "Cash" then bump m (yearKey (line.getD 0 "")) (rowDC line) else m

/-- The accumulated `cashByYear` map (lines 112-128); the file named
`yearly.csv` is skipped. -/
def cashByYearOf (cache : Cache) : List (String × JsNum) :=
  cache.foldl (fun m e => if e.1 = "yearly.csv" then m else e.2.foldl yearlyStep m) []

/-- The full `yearly.csv` contents (lines 130-136). -/
def yearlyOutput (cache : Cache) : String :=
  let m := cashByYearOf cache
  String.intercalate "\n"
    ("Financial Year,Cash Balance" ::
      (sortStrings (m.map Prod.fst)).map
        (fun y => y ++ "," ++ ((lookupBal m y).getD (JsNum.num 0)).toFixed2))

/-- The Financial Statement taxonomy (lines 152-182): Revenues. -/
def revenueAccounts : List String := ["Sales Revenue"]

/-- Taxonomy: Expenses. -/
def expenseAccounts : List String :=
  ["Cost of Goods Sold", "Salaries Expense", "Rent Expense",
   "Utilities Expense", "Interest Expense", "Tax Expense"]

/-- Taxonomy: Assets. -/
def assetAccounts : List String :=
  ["Cash", "Accounts Receivable", "Inventory", "Fixed Assets", "Prepaid Expenses"]

/-- Taxonomy: Liabilities. -/
def liabilityAccounts : List String :=
  ["Accounts Payable", "Loan Payable", "Sales Tax Payable",
   "Accrued Liabilities", "Unearned Revenue", "Dividends Payable"]

/-- Taxonomy: Equity. -/
def equityAccounts : List String := ["Common Stock", "Retained Earnings"]

/-- All taxonomy account names in pre-seeding order (lines 184-191). -/
def taxonomyAccounts : List String :=
  revenueAccounts ++ expenseAccounts ++ assetAccounts ++ liabilityAccounts ++ equityAccounts

/-- One row of the Financial Statement job (lines 195-201): accumulate only
when `Object.hasOwn(balances, account)`; note there is no falsy reset here. -/
def fsStep (m : List (String × JsNum)) (line : List String) : List (String × JsNum) :=
  match lookupBal m (acct line) with
  | some b => updateBal m (acct line) (b.add (rowDC line))
  | none => m

/-- The accumulated `balances` map of the Financial Statement job, pre-seeded
with `0` for every taxonomy account (lines 184-203); the file named `fs.csv`
is skipped. -/
def fsBalances (cache : Cache) : List (String × JsNum) :=
  cache.foldl (fun m e => if e.1 = "fs.csv" then m else e.2.foldl fsStep m)
    (taxonomyAccounts.map (fun a => (a, JsNum.num 0)))

/-- The value printed for one statement line: `balances[account] || 0`
(absent — impossible for taxonomy accounts — or falsy collapses to `0`). -/
def fsLineVal (m : List (String × JsNum)) (a : String) : ℚ :=
  ((lookupBal m a).getD (JsNum.num 0)).orZero

/-- The output assembly of the Financial Statement job (lines 205-260),
abstracted over the per-account value read `v` (in the source, the repeated
`balances[account] || 0`): statement lines in fixed taxonomy order and the
totals accumulated alongside them. -/
def fsRender (v : String → ℚ) : String :=
  let totalRevenue := revenueAccounts.foldl (fun t a => qAdd t (v a)) 0
  let totalExpenses := expenseAccounts.foldl (fun t a => qAdd t (v a)) 0
  let totalAssets := assetAccounts.foldl (fun t a => qAdd t (v a)) 0
  let totalLiabilities := liabilityAccounts.foldl (fun t a => qAdd t (v a)) 0
  let totalEquity0 := equityAccounts.foldl (fun t a => qAdd t (v a)) 0
  String.intercalate "\n"
    (["Basic Financial Statement", "", "Income Statement"]
      ++ revenueAccounts.map (fun a => a ++ "," ++ qToFixed2 (v a))
      ++ expenseAccounts.map (fun a => a ++ "," ++ qToFixed2 (v a))
      ++ ["Net Income," ++ qToFixed2 (qSub totalRevenue totalExpenses), "", "Balance Sheet", "Assets"]
      ++ assetAccounts.map (fun a => a ++ "," ++ qToFixed2 (v a))
      ++ ["Total Assets," ++ qToFixed2 totalAssets, "", "Liabilities"]
      ++ liabilityAccounts.map (fun a => a ++ "," ++ qToFixed2 (v a))
      ++ ["Total Liabilities," ++ qToFixed2 totalLiabilities, "", "Equity"]
      ++ equityAccounts.map (fun a => a ++ "," ++ qToFixed2 (v a))
      ++ ["Retained Earnings (Net Income)," ++ qToFixed2 (qSub totalRevenue totalExpenses),
          "Total Equity," ++ qToFixed2 (qAdd totalEquity0 (qSub totalRevenue totalExpenses)), "",
          "Assets = Liabilities + Equity, " ++ qToFixed2 totalAssets ++ " = "
            ++ qToFixed2 (qAdd totalLiabilities (qAdd totalEquity0 (qSub totalRevenue totalExpenses)))])

/-- The total revenue accumulator of the Financial Statement job (lines
207-213). -/
def fsTotalRevenue (cache : Cache) : ℚ :=
  revenueAccounts.foldl (fun t a => qAdd t (fsLineVal (fsBalances cache) a)) 0

/-- The total expenses accumulator of the Financial Statement job (lines
208-218). -/
def fsTotalExpenses (cache : Cache) : ℚ :=
  expenseAccounts.foldl (fun t a => qAdd t (fsLineVal (fsBalances cache) a)) 0

/-- The full `fs.csv` contents. -/
def fsOutput (cache : Cache) : String :=
  fsRender (fun a => fsLineVal (fsBalances cache) a)

/-- The three output files of one run. -/
structure RunOutputs where
  accountsCsv : String
  yearlyCsv : String
  fsCsv : String
  deriving DecidableEq, Repr

/-- The three report jobs applied to a loaded cache. -/
def reportsOf (cache : Cache) : RunOutputs :=
  ⟨accountsOutput cache, yearlyOutput cache, fsOutput cache⟩

/-- `generateAllReports` (lines 65-68) as a state transformer on the
service's `parsedFiles` field: `loadFiles` discards any previously cached
files (line 31, `this.parsedFiles = {}`) and installs the freshly loaded
`cache`, then the three jobs run over it. -/
def generateAllReports (prevParsedFiles : Cache) (cache : Cache) : RunOutputs × Cache :=
  let parsedFiles := cache
  (reportsOf parsedFiles, parsedFiles)

/-- The Progress Tracker (`states`, lines 8-12). -/
structure JobStates where
  accounts : String
  yearly : String
  fs : String
  deriving DecidableEq, Repr

/-- `keyof typeof this.states`: the three job names the typed `state`
accessor accepts. -/
inductive Scope where
  | accounts : Scope
  | yearly : Scope
  | fs : Scope
  deriving DecidableEq, Repr

/-- `state(scope)` (lines 16-18): read the status string of one job. -/
def stateOf (st : JobStates) : Scope → String
  | .accounts => st.accounts
  | .yearly => st.yearly
  | .fs => st.fs

/-- Modelled from the spec: the status-query operation at the external
interface (§6), whose transport-level handler is not part of `src/` — only
the typed `state(scope)` accessor is. Given a job name it returns that job's
status string; an unrecognized job name is a usage error reported to the
caller; the service state is returned unchanged. -/
def statusQuery (st : JobStates) (name : String) : Except String String × JobStates :=
  if name = "accounts" then (.ok (stateOf st .accounts), st)
  else if name = "yearly" then (.ok (stateOf st .yearly), st)
  else if name = "fs" then (.ok (stateOf st .fs), st)
  else (.error ("unknown job name: " ++ name), st)

/-- Events of one orchestrated run, for the load-before-report ordering
property. -/
inductive RunEvent where
  | fileLoaded : String → RunEvent
  | jobStarted : String → RunEvent
  | cacheRead : String → Cache → RunEvent
  | jobFinished : String → RunEvent
  deriving DecidableEq

/-- Whether an event belongs to the File Loader phase. -/
def RunEvent.isLoad : RunEvent → Bool
  | .fileLoaded _ => true
  | _ => false

/-- Whether an event belongs to a Report Job. -/
def RunEvent.isJobEvent : RunEvent → Bool
  | .jobStarted _ => true
  | .cacheRead _ _ => true
  | .jobFinished _ => true
  | _ => false

/-- The events of one report job: it starts, reads the cache `c` it observes,
and finishes. -/
def jobTrace (j : String) (c : Cache) : List RunEvent :=
  [.jobStarted j, .cacheRead j c, .jobFinished j]

/-- Arbitrary interleaving of two event sequences, each kept in order —
the possible schedules of two concurrently running async tasks. -/
inductive Interleave : List RunEvent → List RunEvent → List RunEvent → Prop where
  | nil : Interleave [] [] []
  | left {x xs ys zs} : Interleave xs ys zs → Interleave (x :: xs) ys (x :: zs)
  | right {y xs ys zs} : Interleave xs ys zs → Interleave xs (y :: ys) (y :: zs)

/-- The traces `generateAllReports` can produce on `dir` (lines 65-68): first
the `await this.loadFiles()` phase — every eligible file loaded, in any
completion order — and only then `Promise.all` of the three jobs, whose
events interleave arbitrarily; each job reads the fully loaded cache. -/
def possibleRunTrace (dir : List (String × String)) (t : List RunEvent) : Prop :=
  ∃ l u v,
    l.Perm ((loadCache dir).map (fun e => RunEvent.fileLoaded e.1))
    ∧ Interleave (jobTrace "accounts" (loadCache dir)) (jobTrace "yearly" (loadCache dir)) u
    ∧ Interleave u (jobTrace "fs" (loadCache dir)) v
    ∧ t = l ++ v

/-- Rows of all cache entries, concatenated in cache order. -/
def allRows (cache : Cache) : List (List String) :=
  cache.foldr (fun e r => e.2 ++ r) []

/-- Rows of all cache entries except the file named `skip`. -/
def allRowsExcept (cache : Cache) (skip : String) : List (List String) :=
  allRows (cache.filter (fun e => ¬ e.1 = skip))

/-- Keep-first deduplication (the key set of a JS object in insertion
order), with an explicit already-seen list. -/
def dedupFirstAux {α : Type} [DecidableEq α] (seen : List α) : List α → List α
  | [] => []
  | x :: xs => if x ∈ seen then dedupFirstAux seen xs else x :: dedupFirstAux (x :: seen) xs

/-- Keep-first deduplication. -/
def dedupFirst {α : Type} [DecidableEq α] (l : List α) : List α := dedupFirstAux [] l

/-- Specification side: the accounts appearing in a row sequence, in
first-seen order. -/
def firstSeen (rows : List (List String)) : List String := dedupFirst (rows.map acct)

/-- Specification side: the sum of `debit − credit` over the rows carrying
account `a` (JS semantics: an unparseable contribution is `NaN` and
propagates through the sum). -/
def sumDebitCredit (rows : List (List String)) (a : String) : JsNum :=
  ((rows.filter (fun r => acct r = a)).map rowDC).sum

/-- A row's contribution as a rational (meaningful when both amount fields
parse). -/
def rowDCq (line : List String) : ℚ := (rowDC line).orZero

/-- Both amount fields of the row parse to numbers (a missing or empty field
counts, via the `|| '0'` fallback). -/
def rowOk (line : List String) : Prop :=
  (fieldOr0 line 3).isNum = true ∧ (fieldOr0 line 4).isNum = true

instance (line : List String) : Decidable (rowOk line) := by
  unfold rowOk
  infer_instance

/-- Specification side: the rational sum of `debit − credit` over the rows
carrying account `a`. -/
def ratSum (rows : List (List String)) (a : String) : ℚ :=
  ((rows.filter (fun r => acct r = a)).map rowDCq).sum

/-- Insert into a `≤`-sorted list of integers. -/
def insertInt (x : ℤ) : List ℤ → List ℤ
  | [] => [x]
  | y :: ys => if x ≤ y then x :: y :: ys else y :: insertInt x ys

/-- Ascending insertion sort on integers (specification side). -/
def sortInts (l : List ℤ) : List ℤ := l.foldr insertInt []

/-- Specification side: the years of the Cash rows feeding the Yearly Cash
Flow job, in row order. -/
def cashYears (cache : Cache) : List ℤ :=
  ((allRowsExcept cache "yearly.csv").filter (fun r => acct r = "Cash")).filterMap
    (fun r => dateYear (r.getD 0 ""))

/-- Specification side: the distinct years of the Cash rows, ascending. -/
def specYears (cache : Cache) : List ℤ :=
  sortInts (dedupFirst (cashYears cache))

/-- The row's date parses to a four-digit year (1000 to 9999). -/
def yearOk (r : List String) : Bool :=
  match dateYear (r.getD 0 "") with
  | some y => 1000 ≤ y && y ≤ 9999
  | none => false

/-- Specification side (for the Financial Statement claim): the statement
rendering in the spec's words — exactly the fixed taxonomy lines, and each
displayed total equal to the plain sum of its section's line values. -/
def fsSpecRender (v : String → ℚ) : String :=
  let totalRevenue := v "Sales Revenue"
  let totalExpenses := v "Cost of Goods Sold" + v "Salaries Expense" + v "Rent Expense"
    + v "Utilities Expense" + v "Interest Expense" + v "Tax Expense"
  let totalAssets := v "Cash" + v "Accounts Receivable" + v "Inventory"
    + v "Fixed Assets" + v "Prepaid Expenses"
  let totalLiabilities := v "Accounts Payable" + v "Loan Payable" + v "Sales Tax Payable"
    + v "Accrued Liabilities" + v "Unearned Revenue" + v "Dividends Payable"
  let totalEquity0 := v "Common Stock" + v "Retained Earnings"
  String.intercalate "\n"
    (["Basic Financial Statement", "", "Income Statement"]
      ++ revenueAccounts.map (fun a => a ++ "," ++ qToFixed2 (v a))
      ++ expenseAccounts.map (fun a => a ++ "," ++ qToFixed2 (v a))
      ++ ["Net Income," ++ qToFixed2 (totalRevenue - totalExpenses), "", "Balance Sheet", "Assets"]
      ++ assetAccounts.map (fun a => a ++ "," ++ qToFixed2 (v a))
      ++ ["Total Assets," ++ qToFixed2 totalAssets, "", "Liabilities"]
      ++ liabilityAccounts.map (fun a => a ++ "," ++ qToFixed2 (v a))
      ++ ["Total Liabilities," ++ qToFixed2 totalLiabilities, "", "Equity"]
      ++ equityAccounts.map (fun a => a ++ "," ++ qToFixed2 (v a))
      ++ ["Retained Earnings (Net Income)," ++ qToFixed2 (totalRevenue - totalExpenses),
          "Total Equity," ++ qToFixed2 (totalEquity0 + (totalRevenue - totalExpenses)), "",
          "Assets = Liabilities + Equity, " ++ qToFixed2 totalAssets ++ " = "
            ++ qToFixed2 (totalLiabilities + (totalEquity0 + (totalRevenue - totalExpenses)))])

/-- Specification side (C1's words): the Account Balances output as one row
per account in first-seen order, each balance the sum of `debit − credit`
over all rows carrying that account. -/
def specAccountsOutput (cache : Cache) : String :=
  String.intercalate "\n"
    ("Account,Balance" ::
      (firstSeen (allRows cache)).map
        (fun a => a ++ "," ++ (sumDebitCredit (allRows cache) a).toFixed2))

/-- Specification side (C4's words): the Yearly Cash Flow output with exactly
one row per distinct year of the Cash rows, in ascending numeric year order
(row values as computed by the job). -/
def specYearlyOutput (cache : Cache) : String :=
  String.intercalate "\n"
    ("Financial Year,Cash Balance" ::
      (specYears cache).map
        (fun y => intDecimal y ++ ","
          ++ ((lookupBal (cashByYearOf cache) (intDecimal y)).getD (JsNum.num 0)).toFixed2))

/-- Concrete cache refuting C1 as stated: an unparseable debit makes the
stored balance `NaN`, and the next row for the same account silently resets
it, discarding the earlier contribution of 10. -/
def cacheC1 : Cache :=
  [("f.csv",
    [["2023-01-01", "A", "", "10", "0"],
     ["2023-01-02", "A", "", "x", "0"],
     ["2023-01-03", "A", "", "5", "0"]])]

/-- Concrete cache refuting C2 as stated: a nonempty unparseable debit field. -/
def cacheC2 : Cache := [("f.csv", [["2023-01-01", "A", "", "abc", "0"]])]

/-- The concrete directory of claim C5. -/
def dirC5 : List (String × String) :=
  [("a.csv", "2023-01-01,Cash,,100,0\n2023-02-01,Sales Revenue,,0,100")]

/-- The loaded cache of claim C5. -/
def cacheC5 : Cache := loadCache dirC5

/-- Concrete cache refuting C4's sort claim: Cash rows in years 999 and 1000;
the string sort puts key "1000" before key "999". -/
def cacheC4 : Cache :=
  [("a.csv", [["0999-01-01", "Cash", "", "1", "0"]]),
   ("b.csv", [["1000-01-01", "Cash", "", "2", "0"]])]

/-- Concrete cache with four-digit years for the amended C4. -/
def cacheC4w : Cache :=
  [("a.csv", [["2023-05-01", "Cash", "", "5", "0"], ["2021-03-02", "Cash", "", "2", "1"]])]

/-- Concrete directory for C9: two files, each contributing one account. -/
def dirC9 : List (String × String) :=
  [("a.csv", "2023-01-01,A,,1,0"), ("b.csv", "2023-01-01,B,,1,0")]

/-- One possible load-completion order of `dirC9`. -/
def cacheC9a : Cache := loadCache dirC9

/-- The opposite load-completion order of `dirC9`. -/
def cacheC9b : Cache := (loadCache dirC9).reverse

/-- Concrete directory for the C6 witness. -/
def dirC6 : List (String × String) := [("a.csv", "2023-01-01,Cash,,1,0")]

/-- One possible run trace on `dirC6`: the load event, then the three job
traces in sequence. -/
def traceC6 : List RunEvent :=
  [RunEvent.fileLoaded "a.csv"]
    ++ (jobTrace "accounts" (loadCache dirC6) ++ jobTrace "yearly" (loadCache dirC6))
    ++ jobTrace "fs" (loadCache dirC6)

/-- Concrete cache for the C3 witness: one taxonomy account with data, one
unlisted account, the rest absent. -/
def cacheC3 : Cache :=
  [("a.csv", [["2023-01-01", "Cash", "", "7", "2"], ["2023-01-01", "Zebra", "", "9", "0"]])]

/-! ### Rational-operation bridge lemmas -/

theorem qAdd_eq (x y : ℚ) : qAdd x y = x + y := by
  rw [qAdd, Rat.divInt_eq_div]
  push_cast
  have hx : ((x.den : ℚ)) ≠ 0 := Nat.cast_ne_zero.mpr x.den_nz
  have hy : ((y.den : ℚ)) ≠ 0 := Nat.cast_ne_zero.mpr y.den_nz
  conv_rhs => rw [← Rat.num_div_den x, ← Rat.num_div_den y]
  rw [div_add_div _ _ hx hy]
  ring_nf

theorem qNeg_eq (x : ℚ) : qNeg x = -x := by
  rw [qNeg, Rat.divInt_eq_div]
  push_cast
  have hx : ((x.den : ℚ)) ≠ 0 := Nat.cast_ne_zero.mpr x.den_nz
  conv_rhs => rw [← Rat.num_div_den x]
  rw [neg_div]

theorem qSub_eq (x y : ℚ) : qSub x y = x - y := by
  rw [qSub, qAdd_eq, qNeg_eq, sub_eq_add_neg]

theorem JsNum.add_def (a b : JsNum) : a + b = a.add b := rfl

theorem JsNum.zero_def : (0 : JsNum) = JsNum.num 0 := rfl

theorem JsNum.zero_add (a : JsNum) : (JsNum.num 0).add a = a := by
  cases a <;> simp [JsNum.add, qAdd_eq]

theorem JsNum.add_num (x y : ℚ) : (JsNum.num x).add (JsNum.num y) = JsNum.num (x + y) := by
  simp [JsNum.add, qAdd_eq]

theorem JsNum.addAssoc (a b c : JsNum) : (a.add b).add c = a.add (b.add c) := by
  cases a <;> cases b <;> cases c <;> simp [JsNum.add, qAdd_eq] <;> ring

theorem JsNum.add_zero (a : JsNum) : a.add (JsNum.num 0) = a := by
  cases a <;> simp [JsNum.add, qAdd_eq]

theorem JsNum.sub_num (x y : ℚ) : (JsNum.num x).sub (JsNum.num y) = JsNum.num (x - y) := by
  simp [JsNum.sub, qSub_eq]

/-! ### Association-list lemmas -/

theorem lookupBal_updateBal_self (m : List (String × JsNum)) (k : String) (v : JsNum) :
    lookupBal (updateBal m k v) k = some v := by
  induction m with
  | nil => simp [updateBal, lookupBal]
  | cons e t ih =>
    obtain ⟨k', w⟩ := e
    by_cases h : k' = k
    · simp [updateBal, h, lookupBal]
    · simp [updateBal, h, lookupBal, ih]

theorem lookupBal_updateBal_ne (m : List (String × JsNum)) (k a : String) (v : JsNum)
    (h : k ≠ a) : lookupBal (updateBal m k v) a = lookupBal m a := by
  induction m with
  | nil => simp [updateBal, lookupBal, h]
  | cons e t ih =>
    obtain ⟨k', w⟩ := e
    by_cases h' : k' = k
    · subst h'
      simp [updateBal, lookupBal, h]
    · simp only [updateBal, if_neg h', lookupBal]
      by_cases h'' : k' = a
      · simp [h'']
      · simp [h'', ih]

theorem lookupBal_isSome_iff_mem (m : List (String × JsNum)) (a : String) :
    (lookupBal m a).isSome = true ↔ a ∈ m.map Prod.fst := by
  induction m with
  | nil => simp [lookupBal]
  | cons e t ih =>
    obtain ⟨k, w⟩ := e
    by_cases h : k = a
    · simp [lookupBal, h]
    · simp [lookupBal, h, ih, Ne.symm h]

theorem lookupBal_eq_none_iff (m : List (String × JsNum)) (a : String) :
    lookupBal m a = none ↔ a ∉ m.map Prod.fst := by
  rw [← lookupBal_isSome_iff_mem]
  cases lookupBal m a <;> simp

theorem keys_updateBal_of_mem (m : List (String × JsNum)) (k : String) (v : JsNum)
    (h : k ∈ m.map Prod.fst) :
    (updateBal m k v).map Prod.fst = m.map Prod.fst := by
  induction m with
  | nil => simp at h
  | cons e t ih =>
    obtain ⟨k', w⟩ := e
    by_cases h' : k' = k
    · simp [updateBal, h']
    · simp only [List.map_cons, List.mem_cons] at h
      rcases h with h | h

      · exact absurd h.symm h'
      · simp [updateBal, h', ih h]

theorem keys_updateBal_of_not_mem (m : List (String × JsNum)) (k : String) (v : JsNum)
    (h : k ∉ m.map Prod.fst) :
    (updateBal m k v).map Prod.fst = m.map Prod.fst ++ [k] := by
  induction m with
  | nil => simp [updateBal]
  | cons e t ih =>
    obtain ⟨k', w⟩ := e
    simp only [List.map_cons, List.mem_cons] at h
    push_neg at h
    have hne : k' ≠ k := fun hh => h.1 hh.symm
    simp [updateBal, hne, ih h.2]

theorem lookupBal_map_self (l : List String) (f : String → JsNum) (x : String) :
    lookupBal (l.map (fun a => (a, f a))) x = if x ∈ l then some (f x) else none := by
  induction l with
  | nil => simp [lookupBal]
  | cons a t ih =>
    by_cases h : a = x
    · subst h
      simp [lookupBal]
    · simp [lookupBal, h, ih, Ne.symm h]

theorem assocExt (m₁ m₂ : List (String × JsNum))
    (hk : m₁.map Prod.fst = m₂.map Prod.fst)
    (hnd : (m₁.map Prod.fst).Nodup)
    (hl : ∀ a, lookupBal m₁ a = lookupBal m₂ a) : m₁ = m₂ := by
  induction m₁ generalizing m₂ with
  | nil =>
    cases m₂ with
    | nil => rfl
    | cons e t => simp at hk
  | cons e t ih =>
    obtain ⟨k, v⟩ := e
    cases m₂ with
    | nil => simp at hk
    | cons e₂ t₂ =>
      obtain ⟨k₂, v₂⟩ := e₂
      simp only [List.map_cons, List.cons.injEq] at hk
      obtain ⟨hk1, hk2⟩ := hk
      subst hk1
      have hv : some v = some v₂ := by
        have := hl k
        simpa [lookupBal] using this
      simp only [List.map_cons, List.nodup_cons] at hnd
      have ht : t = t₂ := by
        refine ih t₂ hk2 hnd.2 ?_
        intro a
        by_cases ha : a = k
        · subst ha
          have h1 : lookupBal t a = none := (lookupBal_eq_none_iff t a).2 hnd.1
          have h2 : lookupBal t₂ a = none := by
            rw [lookupBal_eq_none_iff, ← hk2]
            exact hnd.1
          rw [h1, h2]
        · have hka : k ≠ a := fun hh => ha hh.symm
          have := hl a
          simpa [lookupBal, hka] using this
      have hv' : v = v₂ := Option.some.inj hv
      rw [ht, hv']

/-! ### Keep-first dedup lemmas -/

theorem dedupFirstAux_congr {α : Type} [DecidableEq α] (s₁ s₂ : List α)
    (h : ∀ x, x ∈ s₁ ↔ x ∈ s₂) : ∀ l : List α, dedupFirstAux s₁ l = dedupFirstAux s₂ l := by
  intro l
  induction l generalizing s₁ s₂ with
  | nil => simp [dedupFirstAux]
  | cons x xs ih =>
    by_cases hx : x ∈ s₁
    · simp [dedupFirstAux, hx, (h x).1 hx, ih s₁ s₂ h]
    · have hx₂ : x ∉ s₂ := fun hh => hx ((h x).2 hh)
      simp only [dedupFirstAux, if_neg hx, if_neg hx₂]
      congr 1
      refine ih _ _ ?_
      intro y
      simp [h y]

theorem mem_dedupFirstAux {α : Type} [DecidableEq α] (seen : List α) (l : List α) (x : α) :
    x ∈ dedupFirstAux seen l ↔ x ∈ l ∧ x ∉ seen := by
  induction l generalizing seen with
  | nil => simp [dedupFirstAux]
  | cons a t ih =>
    by_cases ha : a ∈ seen
    · rw [dedupFirstAux, if_pos ha, ih]
      constructor
      · rintro ⟨h1, h2⟩
        exact ⟨List.mem_cons_of_mem a h1, h2⟩
      · rintro ⟨h1, h2⟩
        rcases List.mem_cons.1 h1 with h | h
        · exact absurd (h ▸ ha) h2
        · exact ⟨h, h2⟩
    · rw [dedupFirstAux, if_neg ha]
      by_cases hx : x = a
      · subst hx
        simp [ha]
      · rw [List.mem_cons, ih]
        simp [hx, List.mem_cons]

theorem nodup_dedupFirstAux {α : Type} [DecidableEq α] (seen : List α) (l : List α) :
    (dedupFirstAux seen l).Nodup := by
  induction l generalizing seen with
  | nil => simp [dedupFirstAux]
  | cons a t ih =>
    by_cases ha : a ∈ seen
    · rw [dedupFirstAux, if_pos ha]
      exact ih seen
    · rw [dedupFirstAux, if_neg ha]
      refine List.nodup_cons.2 ⟨?_, ih (a :: seen)⟩
      rw [mem_dedupFirstAux]
      simp

/-! ### Accumulation lemmas for the Account Balances job -/

theorem resetFalsy_some_num (q : ℚ) : resetFalsy (some (JsNum.num q)) = JsNum.num q := by
  by_cases h : q = 0 <;> simp [resetFalsy, JsNum.isFalsy, h]

theorem rowDC_isNum (line : List String) (h : rowOk line) : (rowDC line).isNum = true := by
  obtain ⟨h3, h4⟩ := h
  rw [rowDC]
  cases e3 : fieldOr0 line 3 <;> cases e4 : fieldOr0 line 4 <;>
    rw [e3] at h3 <;> rw [e4] at h4 <;> simp_all [JsNum.isNum, JsNum.sub]

theorem rowDC_eq_num (line : List String) (h : rowOk line) :
    rowDC line = JsNum.num (rowDCq line) := by
  have hn := rowDC_isNum line h
  cases e : rowDC line
  · rw [e] at hn
    simp [JsNum.isNum] at hn
  · simp [rowDCq, e, JsNum.orZero]

theorem accountsStep_def (m : List (String × JsNum)) (r : List String) :
    accountsStep m r = bump m (acct r) (rowDC r) := rfl

theorem foldl_files_eq_allRows (cache : Cache) :
    ∀ m, cache.foldl (fun m e => e.2.foldl accountsStep m) m = (allRows cache).foldl accountsStep m := by
  induction cache with
  | nil =>
    intro m
    simp [allRows]
  | cons e t ih =>
    intro m
    rw [show allRows (e :: t) = e.2 ++ allRows t from rfl, List.foldl_append, List.foldl_cons]
    exact ih _

theorem bumpFold_keys (key : List String → String) (amt : List String → JsNum) :
    ∀ (rows : List (List String)) (m : List (String × JsNum)),
      ((rows.foldl (fun m r => bump m (key r) (amt r)) m).map Prod.fst)
        = m.map Prod.fst ++ dedupFirstAux (m.map Prod.fst) (rows.map key) := by
  intro rows
  induction rows with
  | nil =>
    intro m
    simp [dedupFirstAux]
  | cons r rs ih =>
    intro m
    simp only [List.foldl_cons, List.map_cons]
    by_cases h : key r ∈ m.map Prod.fst
    · rw [ih]
      simp only [bump]
      rw [keys_updateBal_of_mem _ _ _ h, dedupFirstAux, if_pos h]
    · rw [ih]
      simp only [bump]
      rw [keys_updateBal_of_not_mem _ _ _ h, dedupFirstAux, if_neg h,
        List.append_assoc, List.singleton_append]
      congr 1
      congr 1
      apply dedupFirstAux_congr
      intro x
      rw [List.mem_append, List.mem_singleton, List.mem_cons]
      tauto

theorem accFold_lookup_some (rows : List (List String)) :
    ∀ (m : List (String × JsNum)) (a : String) (q : ℚ),
      (∀ r ∈ rows, rowOk r) → lookupBal m a = some (JsNum.num q) →
      lookupBal (rows.foldl accountsStep m) a = some (JsNum.num (q + ratSum rows a)) := by
  induction rows with
  | nil =>
    intro m a q _ h
    simpa [ratSum] using h
  | cons r rs ih =>
    intro m a q hok h
    have hokr : rowOk r := hok r (List.mem_cons_self r rs)
    have hoks : ∀ x ∈ rs, rowOk x := fun x hx => hok x (List.mem_cons_of_mem r hx)
    simp only [List.foldl_cons]
    by_cases hr : acct r = a
    · have hcur : lookupBal m (acct r) = some (JsNum.num q) := by rw [hr]; exact h
      have hstep : accountsStep m r = updateBal m (acct r) (JsNum.num (q + rowDCq r)) := by
        rw [accountsStep_def, bump, hcur, resetFalsy_some_num, rowDC_eq_num r hokr]
        simp [JsNum.add, qAdd_eq]
      have hlk : lookupBal (accountsStep m r) a = some (JsNum.num (q + rowDCq r)) := by
        rw [hstep, hr]
        exact lookupBal_updateBal_self _ _ _
      rw [ih _ _ _ hoks hlk]
      have hsum : ratSum (r :: rs) a = rowDCq r + ratSum rs a := by
        simp [ratSum, List.filter_cons, hr]
      rw [hsum]
      congr 1
      ring
    · have hlk : lookupBal (accountsStep m r) a = some (JsNum.num q) := by
        rw [accountsStep_def, bump, lookupBal_updateBal_ne _ _ _ _ hr]
        exact h
      rw [ih _ _ _ hoks hlk]
      have hsum : ratSum (r :: rs) a = ratSum rs a := by
        simp [ratSum, List.filter_cons, hr]
      rw [hsum]

theorem accFold_lookup_none (rows : List (List String)) :
    ∀ (m : List (String × JsNum)) (a : String),
      (∀ r ∈ rows, rowOk r) → lookupBal m a = none →
      lookupBal (rows.foldl accountsStep m) a
        = if a ∈ rows.map acct then some (JsNum.num (ratSum rows a)) else none := by
  induction rows with
  | nil =>
    intro m a _ h
    simpa using h
  | cons r rs ih =>
    intro m a hok h
    have hokr : rowOk r := hok r (List.mem_cons_self r rs)
    have hoks : ∀ x ∈ rs, rowOk x := fun x hx => hok x (List.mem_cons_of_mem r hx)
    simp only [List.foldl_cons]
    by_cases hr : acct r = a
    · have hcur : lookupBal m (acct r) = none := by rw [hr]; exact h
      have hstep : accountsStep m r = updateBal m (acct r) (JsNum.num (0 + rowDCq r)) := by
        rw [accountsStep_def, bump, hcur, rowDC_eq_num r hokr]
        simp [resetFalsy, JsNum.add, qAdd_eq]
      have hlk : lookupBal (accountsStep m r) a = some (JsNum.num (0 + rowDCq r)) := by
        rw [hstep, hr]
        exact lookupBal_updateBal_self _ _ _
      rw [accFold_lookup_some rs _ _ _ hoks hlk]
      have hmem : a ∈ (r :: rs).map acct := by
        simp [List.map_cons, hr]
      rw [if_pos hmem]
      have hsum : ratSum (r :: rs) a = rowDCq r + ratSum rs a := by
        simp [ratSum, List.filter_cons, hr]
      rw [hsum]
      congr 1
      ring
    · have hlk : lookupBal (accountsStep m r) a = none := by
        rw [accountsStep_def, bump, lookupBal_updateBal_ne _ _ _ _ hr]
        exact h
      rw [ih _ _ hoks hlk]
      have hsum : ratSum (r :: rs) a = ratSum rs a := by
        simp [ratSum, List.filter_cons, hr]
      have hne : a ≠ acct r := fun hh => hr hh.symm
      rw [hsum]
      simp [List.map_cons, List.mem_cons, hne]

theorem accountBalancesOf_eq_foldRows (cache : Cache) :
    accountBalancesOf cache = (allRows cache).foldl accountsStep [] :=
  foldl_files_eq_allRows cache []

theorem accountBalancesOf_keys (cache : Cache) :
    (accountBalancesOf cache).map Prod.fst = firstSeen (allRows cache) := by
  rw [accountBalancesOf_eq_foldRows]
  have h := bumpFold_keys acct rowDC (allRows cache) []
  simpa [firstSeen, dedupFirst] using h

theorem accountBalancesOf_lookup (cache : Cache)
    (h : ∀ r ∈ allRows cache, rowOk r) (a : String) :
    lookupBal (accountBalancesOf cache) a
      = if a ∈ (allRows cache).map acct then some (JsNum.num (ratSum (allRows cache) a))
        else none := by
  rw [accountBalancesOf_eq_foldRows]
  exact accFold_lookup_none _ _ _ h rfl

theorem accountBalancesOf_spec (cache : Cache)
    (h : ∀ r ∈ allRows cache, rowOk r) :
    accountBalancesOf cache
      = (firstSeen (allRows cache)).map
          (fun a => (a, JsNum.num (ratSum (allRows cache) a))) := by
  refine assocExt _ _ ?_ ?_ ?_
  · rw [accountBalancesOf_keys, List.map_map,
      show (Prod.fst ∘ fun a => (a, JsNum.num (ratSum (allRows cache) a))) = id from rfl,
      List.map_id]
  · rw [accountBalancesOf_keys]
    exact nodup_dedupFirstAux [] _
  · intro a
    rw [accountBalancesOf_lookup cache h a, lookupBal_map_self]
    have hmem : a ∈ firstSeen (allRows cache) ↔ a ∈ (allRows cache).map acct := by
      rw [firstSeen, dedupFirst, mem_dedupFirstAux]
      simp
    by_cases hx : a ∈ (allRows cache).map acct
    · rw [if_pos hx, if_pos (hmem.2 hx)]
    · rw [if_neg hx, if_neg (fun hh => hx (hmem.1 hh))]

theorem sumDebitCredit_eq_num (rows : List (List String)) (a : String)
    (h : ∀ r ∈ rows, rowOk r) :
    sumDebitCredit rows a = JsNum.num (ratSum rows a) := by
  induction rows with
  | nil =>
    simp [sumDebitCredit, ratSum]
    rfl
  | cons r rs ih =>
    have hokr : rowOk r := h r (List.mem_cons_self r rs)
    have hoks : ∀ x ∈ rs, rowOk x := fun x hx => h x (List.mem_cons_of_mem r hx)
    by_cases hr : acct r = a
    · have h1 : ratSum (r :: rs) a = rowDCq r + ratSum rs a := by
        simp [ratSum, List.filter_cons, hr]
      have h2 : sumDebitCredit (r :: rs) a = (rowDC r).add (sumDebitCredit rs a) := by
        simp [sumDebitCredit, List.filter_cons, hr, JsNum.add_def]
      rw [h2, ih hoks, rowDC_eq_num r hokr, h1]
      simp [JsNum.add, qAdd_eq]
    · have h1 : ratSum (r :: rs) a = ratSum rs a := by
        simp [ratSum, List.filter_cons, hr]
      have h2 : sumDebitCredit (r :: rs) a = sumDebitCredit rs a := by
        simp [sumDebitCredit, List.filter_cons, hr]
      rw [h2, ih hoks, h1]

/-! ### Claims C1, C2, C10 -/

/-- C1 (amended): provided every debit/credit field of every row is missing,
empty, or parseable (so no `NaN` arises), the Account Balances output has
the `Account,Balance` header followed by one row per account in first-seen
order whose balance is `toFixed(2)` of the sum of `debit − credit` over all
rows carrying that account; and for any repartition of the same rows across
files, every account's computed balance is unchanged. -/
theorem accounts_sum_first_seen (cache : Cache)
    (h : ∀ r ∈ allRows cache, rowOk r) :
    accountsOutput cache = specAccountsOutput cache
    ∧ ∀ cache₂, (∀ r ∈ allRows cache₂, rowOk r) → (allRows cache₂).Perm (allRows cache) →
        ∀ a, lookupBal (accountBalancesOf cache₂) a = lookupBal (accountBalancesOf cache) a := by
  constructor
  · rw [accountsOutput, specAccountsOutput, accountBalancesOf_spec cache h, List.map_map]
    congr 1
    congr 1
    apply List.map_congr_left
    intro a _
    simp only [Function.comp]
    rw [sumDebitCredit_eq_num _ _ h]
  · intro cache₂ h₂ hp a
    rw [accountBalancesOf_lookup cache₂ h₂ a, accountBalancesOf_lookup cache h a]
    have hmem : (a ∈ (allRows cache₂).map acct) ↔ (a ∈ (allRows cache).map acct) :=
      (hp.map acct).mem_iff
    have hsum : ratSum (allRows cache₂) a = ratSum (allRows cache) a := by
      rw [ratSum, ratSum]
      exact ((hp.filter _).map _).sum_eq
    by_cases hx : a ∈ (allRows cache).map acct
    · rw [if_pos hx, if_pos (hmem.2 hx), hsum]
    · rw [if_neg hx, if_neg (fun hh => hx (hmem.1 hh))]

/-- C1 witness: the amended theorem evaluated on the concrete C5 cache. -/
theorem accounts_sum_first_seen_witness :
    (∀ r ∈ allRows cacheC5, rowOk r)
    ∧ accountsOutput cacheC5 = "Account,Balance\nCash,100.00\nSales Revenue,-100.00" := by
  have hok : ∀ r ∈ allRows cacheC5, rowOk r := by decide
  refine ⟨hok, ?_⟩
  rw [(accounts_sum_first_seen cacheC5 hok).1]
  decide

/-- C1 counterexample: on `cacheC1` the emitted balance for account A is
`5.00`, but the sum of `debit − credit` over A's rows is `NaN` (and with the
"unparseable ↦ 0" reading it would be `15.00`); the claimed equality of the
output with the per-account sums fails. -/
theorem accounts_sum_counterexample :
    accountsOutput cacheC1 = "Account,Balance\nA,5.00"
    ∧ specAccountsOutput cacheC1 = "Account,Balance\nA,NaN"
    ∧ accountsOutput cacheC1 ≠ specAccountsOutput cacheC1 := by
  refine ⟨by decide, by decide, by decide⟩

/-- C2 (amended): a missing or empty debit/credit field is treated as 0 via
the `|| '0'` fallback (so a row with only date and account contributes
`0 − 0`), and parsing is total; but a nonempty unparseable field yields
`NaN`, not 0, which propagates into the balance. -/
theorem amounts_parse_fallback (line : List String) :
    (line.getD 3 "" = "" → fieldOr0 line 3 = JsNum.num 0)
    ∧ (line.getD 4 "" = "" → fieldOr0 line 4 = JsNum.num 0)
    ∧ (∀ d a : String, rowDC [d, a] = JsNum.num 0)
    ∧ (∀ date a desc debit credit : String, debit ≠ "" →
        fieldOr0 [date, a, desc, debit, credit] 3 = parseFloat debit) := by
  refine ⟨?_, ?_, ?_, ?_⟩
  · intro hf
    simp only [fieldOr0, hf]
    decide
  · intro hf
    simp only [fieldOr0, hf]
    decide
  · intro d a
    have h3 : List.getD [d, a] 3 "" = "" := rfl
    have h4 : List.getD [d, a] 4 "" = "" := rfl
    simp only [rowDC, fieldOr0, h3, h4]
    decide
  · intro date a desc debit credit hdeb
    have h3 : List.getD [date, a, desc, debit, credit] 3 "" = debit := rfl
    simp only [fieldOr0, h3, if_neg hdeb]

/-- C2 witness: the fallback evaluated on a row with only date and account. -/
theorem amounts_parse_fallback_witness :
    fieldOr0 ["2023-01-01", "A"] 3 = JsNum.num 0
    ∧ rowDC ["2023-01-01", "A"] = JsNum.num 0 :=
  ⟨(amounts_parse_fallback ["2023-01-01", "A"]).1 rfl,
   (amounts_parse_fallback ["2023-01-01", "A"]).2.2.1 "2023-01-01" "A"⟩

/-- C2 counterexample: the unparseable debit "abc" is not treated as 0 — it
parses to `NaN`, and the Account Balances job then emits `A,NaN`. -/
theorem amounts_parse_counterexample :
    fieldOr0 ["2023-01-01", "A", "", "abc", "0"] 3 = JsNum.nan
    ∧ JsNum.nan ≠ JsNum.num 0
    ∧ accountsOutput cacheC2 = "Account,Balance\nA,NaN"
    ∧ accountsOutput cacheC2 ≠ "Account,Balance\nA,0.00" := by
  refine ⟨by decide, by decide, by decide, by decide⟩

/-- C10 (confirmed): when the stored balance for a row's account is falsy
(0 or NaN), the Account Balances step resets it to 0 before adding, so the
new stored balance is exactly that row's `debit − credit` — every earlier
contribution (in particular an accumulated NaN) is discarded. -/
theorem falsy_reset_discards (m : List (String × JsNum)) (line : List String) (b : JsNum)
    (h : lookupBal m (acct line) = some b) (hb : b.isFalsy = true) :
    lookupBal (accountsStep m line) (acct line) = some (rowDC line) := by
  rw [accountsStep_def, bump, h]
  have hres : resetFalsy (some b) = JsNum.num 0 := by simp [resetFalsy, hb]
  rw [hres, JsNum.zero_add]
  exact lookupBal_updateBal_self _ _ _

/-- C10 witness: a NaN balance for account A is discarded by the next A row. -/
theorem falsy_reset_discards_witness :
    lookupBal [("A", JsNum.nan)] (acct ["2023-01-01", "A", "", "5", "0"]) = some JsNum.nan
    ∧ lookupBal (accountsStep [("A", JsNum.nan)] ["2023-01-01", "A", "", "5", "0"]) "A"
        = some (JsNum.num 5) := by
  constructor
  · decide
  · have h := falsy_reset_discards [("A", JsNum.nan)] ["2023-01-01", "A", "", "5", "0"]
      JsNum.nan (by decide) (by decide)
    exact h.trans (by decide)

/-! ### Financial Statement job lemmas -/

theorem sumDebitCredit_cons_pos (r : List String) (rs : List (List String)) (a : String)
    (h : acct r = a) :
    sumDebitCredit (r :: rs) a = (rowDC r).add (sumDebitCredit rs a) := by
  simp [sumDebitCredit, List.filter_cons, h, JsNum.add_def]

theorem sumDebitCredit_cons_neg (r : List String) (rs : List (List String)) (a : String)
    (h : ¬ acct r = a) :
    sumDebitCredit (r :: rs) a = sumDebitCredit rs a := by
  simp [sumDebitCredit, List.filter_cons, h]

theorem sumDebitCredit_nil (a : String) : sumDebitCredit [] a = JsNum.num 0 := rfl

theorem sumDebitCredit_append (rows₁ rows₂ : List (List String)) (a : String) :
    sumDebitCredit (rows₁ ++ rows₂) a
      = (sumDebitCredit rows₁ a).add (sumDebitCredit rows₂ a) := by
  induction rows₁ with
  | nil =>
    rw [List.nil_append, sumDebitCredit_nil, JsNum.zero_add]
  | cons r rs ih =>
    by_cases h : acct r = a
    · rw [List.cons_append, sumDebitCredit_cons_pos _ _ _ h, sumDebitCredit_cons_pos _ _ _ h,
        ih, JsNum.addAssoc]
    · rw [List.cons_append, sumDebitCredit_cons_neg _ _ _ h, sumDebitCredit_cons_neg _ _ _ h, ih]

theorem sumDebitCredit_of_absent (rows : List (List String)) (a : String)
    (h : ∀ r ∈ rows, acct r ≠ a) : sumDebitCredit rows a = JsNum.num 0 := by
  induction rows with
  | nil => rfl
  | cons r rs ih =>
    rw [sumDebitCredit_cons_neg _ _ _ (h r (List.mem_cons_self r rs)),
      ih (fun x hx => h x (List.mem_cons_of_mem r hx))]

theorem allRows_cons (e : String × List (List String)) (t : Cache) :
    allRows (e :: t) = e.2 ++ allRows t := rfl

theorem allRows_append (c₁ c₂ : Cache) : allRows (c₁ ++ c₂) = allRows c₁ ++ allRows c₂ := by
  induction c₁ with
  | nil => rfl
  | cons e t ih => rw [List.cons_append, allRows_cons, allRows_cons, ih, List.append_assoc]

theorem mem_allRows (cache : Cache) (r : List String) :
    r ∈ allRows cache ↔ ∃ e ∈ cache, r ∈ e.2 := by
  induction cache with
  | nil => simp [allRows]
  | cons e t ih =>
    rw [allRows_cons, List.mem_append, ih]
    simp

theorem mem_allRowsExcept (cache : Cache) (skip : String) (r : List String)
    (h : r ∈ allRowsExcept cache skip) : r ∈ allRows cache := by
  rw [allRowsExcept, mem_allRows] at h
  obtain ⟨e, he, hr⟩ := h
  exact (mem_allRows cache r).2 ⟨e, List.mem_of_mem_filter he, hr⟩

theorem allRowsExcept_cons (e : String × List (List String)) (t : Cache) (skip : String) :
    allRowsExcept (e :: t) skip
      = if e.1 = skip then allRowsExcept t skip else e.2 ++ allRowsExcept t skip := by
  by_cases h : e.1 = skip
  · simp [allRowsExcept, List.filter_cons, h]
  · simp [allRowsExcept, List.filter_cons, h, allRows_cons]

theorem allRowsExcept_append_single (cache : Cache) (e : String × List (List String))
    (skip : String) :
    allRowsExcept (cache ++ [e]) skip
      = allRowsExcept cache skip ++ (if e.1 = skip then [] else e.2) := by
  rw [allRowsExcept, List.filter_append, allRows_append, allRowsExcept]
  congr 1
  by_cases h : e.1 = skip
  · simp [List.filter_cons, h, allRows]
  · simp [List.filter_cons, h, allRows]

theorem fsBalances_eq_foldRows (cache : Cache) :
    fsBalances cache
      = (allRowsExcept cache "fs.csv").foldl fsStep
          (taxonomyAccounts.map (fun a => (a, JsNum.num 0))) := by
  rw [fsBalances]
  generalize taxonomyAccounts.map (fun a => (a, JsNum.num 0)) = m
  induction cache generalizing m with
  | nil => rfl
  | cons e t ih =>
    rw [List.foldl_cons, allRowsExcept_cons]
    by_cases h : e.1 = "fs.csv"
    · rw [if_pos h, if_pos h, ih]
    · rw [if_neg h, if_neg h, List.foldl_append, ih]

theorem fsFold_lookup_some (rows : List (List String)) :
    ∀ (m : List (String × JsNum)) (a : String) (b : JsNum),
      lookupBal m a = some b →
      lookupBal (rows.foldl fsStep m) a = some (b.add (sumDebitCredit rows a)) := by
  induction rows with
  | nil =>
    intro m a b h
    rw [List.foldl_nil, sumDebitCredit_nil, JsNum.add_zero]
    exact h
  | cons r rs ih =>
    intro m a b h
    rw [List.foldl_cons]
    cases hc : lookupBal m (acct r) with
    | none =>
      have hstep : fsStep m r = m := by rw [fsStep, hc]
      have hne : ¬ acct r = a := by
        intro hh
        rw [hh, h] at hc
        exact Option.noConfusion hc
      rw [hstep, ih m a b h, sumDebitCredit_cons_neg _ _ _ hne]
    | some bc =>
      have hstep : fsStep m r = updateBal m (acct r) (bc.add (rowDC r)) := by
        rw [fsStep, hc]
      by_cases hr : acct r = a
      · have hbc : bc = b := by
          rw [hr, h] at hc
          exact (Option.some.inj hc).symm
        subst hbc
        have hlk : lookupBal (fsStep m r) a = some (bc.add (rowDC r)) := by
          rw [hstep, hr]
          exact lookupBal_updateBal_self _ _ _
        rw [ih _ _ _ hlk, sumDebitCredit_cons_pos _ _ _ hr, JsNum.addAssoc]
      · have hlk : lookupBal (fsStep m r) a = some b := by
          rw [hstep, lookupBal_updateBal_ne _ _ _ _ hr]
          exact h
        rw [ih _ _ _ hlk, sumDebitCredit_cons_neg _ _ _ hr]

theorem fsFold_lookup_none (rows : List (List String)) :
    ∀ (m : List (String × JsNum)) (a : String),
      lookupBal m a = none → lookupBal (rows.foldl fsStep m) a = none := by
  induction rows with
  | nil =>
    intro m a h
    exact h
  | cons r rs ih =>
    intro m a h
    rw [List.foldl_cons]
    cases hc : lookupBal m (acct r) with
    | none =>
      have hstep : fsStep m r = m := by rw [fsStep, hc]
      rw [hstep]
      exact ih m a h
    | some bc =>
      have hne : ¬ acct r = a := by
        intro hh
        rw [hh, h] at hc
        exact Option.noConfusion hc
      have hstep : fsStep m r = updateBal m (acct r) (bc.add (rowDC r)) := by
        rw [fsStep, hc]
      refine ih _ _ ?_
      rw [hstep, lookupBal_updateBal_ne _ _ _ _ hne]
      exact h

theorem fsBalances_lookup (cache : Cache) (a : String) :
    lookupBal (fsBalances cache) a
      = if a ∈ taxonomyAccounts
        then some (sumDebitCredit (allRowsExcept cache "fs.csv") a)
        else none := by
  rw [fsBalances_eq_foldRows]
  by_cases h : a ∈ taxonomyAccounts
  · rw [if_pos h]
    have hinit : lookupBal (taxonomyAccounts.map (fun a => (a, JsNum.num 0))) a
        = some (JsNum.num 0) := by
      rw [lookupBal_map_self, if_pos h]
    rw [fsFold_lookup_some _ _ _ _ hinit, JsNum.zero_add]
  · rw [if_neg h]
    have hinit : lookupBal (taxonomyAccounts.map (fun a => (a, JsNum.num 0))) a = none := by
      rw [lookupBal_map_self, if_neg h]
    exact fsFold_lookup_none _ _ _ hinit

theorem fsRender_eq_spec (v : String → ℚ) : fsRender v = fsSpecRender v := by
  simp [fsRender, fsSpecRender, revenueAccounts, expenseAccounts, assetAccounts,
    liabilityAccounts, equityAccounts, qAdd_eq, qSub_eq, zero_add]

theorem allRowsExcept_append_skip (cache : Cache) (rows : List (List String)) (skip : String) :
    allRowsExcept (cache ++ [(skip, rows)]) skip = allRowsExcept cache skip := by
  rw [allRowsExcept, List.filter_append, allRows_append, allRowsExcept]
  have : List.filter (fun e => ¬ e.1 = skip) [((skip, rows) : String × List (List String))]
      = [] := by
    simp [List.filter_cons]
  rw [this]
  simp [allRows]

theorem allRowsExcept_append_other (cache : Cache) (f : String) (rows : List (List String))
    (skip : String) (h : ¬ f = skip) :
    allRowsExcept (cache ++ [(f, rows)]) skip = allRowsExcept cache skip ++ rows := by
  rw [allRowsExcept, List.filter_append, allRows_append, allRowsExcept]
  have : List.filter (fun e => ¬ e.1 = skip) [((f, rows) : String × List (List String))]
      = [(f, rows)] := by
    simp [List.filter_cons, h]
  rw [this]
  simp [allRows, allRows_cons]

theorem allRows_perm {c₁ c₂ : Cache} (h : c₁.Perm c₂) : (allRows c₁).Perm (allRows c₂) := by
  induction h with
  | nil => exact List.Perm.refl _
  | cons e _ ih =>
    rw [allRows_cons, allRows_cons]
    exact ih.append_left e.2
  | swap x y l =>
    rw [allRows_cons, allRows_cons, allRows_cons, allRows_cons, ← List.append_assoc,
      ← List.append_assoc]
    exact (List.perm_append_comm).append_right _
  | trans _ _ ih₁ ih₂ => exact ih₁.trans ih₂

/-! ### Claims C3 and C5 -/

/-- C3 (confirmed): the Financial Statement output is exactly the fixed
taxonomy rendering — the statement lines are precisely the hardcoded
taxonomy accounts and every displayed total (in particular `Total Assets`)
is the exact sum of its section's line values; a taxonomy account with no
rows in the data is displayed zero-filled; rows for accounts outside the
taxonomy leave the balances untouched. -/
theorem fs_taxonomy_totals (cache : Cache) :
    fsOutput cache = fsSpecRender (fun a => fsLineVal (fsBalances cache) a)
    ∧ (∀ a, a ∈ taxonomyAccounts → (∀ r ∈ allRows cache, acct r ≠ a) →
        fsLineVal (fsBalances cache) a = 0)
    ∧ (∀ (file : String) (line : List String), acct line ∉ taxonomyAccounts →
        fsBalances (cache ++ [(file, [line])]) = fsBalances cache) := by
  refine ⟨fsRender_eq_spec _, ?_, ?_⟩
  · intro a ha habs
    have habs' : ∀ r ∈ allRowsExcept cache "fs.csv", acct r ≠ a :=
      fun r hr => habs r (mem_allRowsExcept _ _ _ hr)
    rw [fsLineVal, fsBalances_lookup, if_pos ha, sumDebitCredit_of_absent _ _ habs']
    rfl
  · intro file line hline
    have hnone : lookupBal (fsBalances cache) (acct line) = none := by
      rw [fsBalances_lookup, if_neg hline]
    by_cases hf : file = "fs.csv"
    · subst hf
      rw [fsBalances_eq_foldRows, allRowsExcept_append_skip, ← fsBalances_eq_foldRows]
    · rw [fsBalances_eq_foldRows, allRowsExcept_append_other _ _ _ _ hf, List.foldl_append,
        ← fsBalances_eq_foldRows, List.foldl_cons, List.foldl_nil, fsStep, hnone]

/-- C3 witness: evaluated on a cache with one Cash row, one unlisted-account
row, and the taxonomy account Inventory absent. -/
theorem fs_taxonomy_totals_witness :
    ("Inventory" ∈ taxonomyAccounts)
    ∧ fsLineVal (fsBalances cacheC3) "Inventory" = 0
    ∧ fsBalances (cacheC3 ++ [("b.csv", [["2023-01-02", "Zebra", "", "9", "0"]])])
        = fsBalances cacheC3 := by
  refine ⟨by decide, ?_, ?_⟩
  · exact (fs_taxonomy_totals cacheC3).2.1 "Inventory" (by decide) (by decide)
  · exact (fs_taxonomy_totals cacheC3).2.2 "b.csv" ["2023-01-02", "Zebra", "", "9", "0"]
      (by decide)

/-- C5 (confirmed): the concrete scenario — one file `a.csv` with rows
`2023-01-01,Cash,,100,0` and `2023-02-01,Sales Revenue,,0,100` — yields the
claimed Account Balances rows, the Yearly Cash Flow row `2023,100.00`, and a
Financial Statement with `totalRevenue = -100`, `totalExpenses = 0` and Net
Income line `-100.00`, preserving the debit-minus-credit sign convention. -/
theorem concrete_scenario_outputs :
    accountsOutput cacheC5 = "Account,Balance\nCash,100.00\nSales Revenue,-100.00"
    ∧ yearlyOutput cacheC5 = "Financial Year,Cash Balance\n2023,100.00"
    ∧ fsTotalRevenue cacheC5 = -100
    ∧ fsTotalExpenses cacheC5 = 0
    ∧ "Net Income," ++ qToFixed2 (qSub (fsTotalRevenue cacheC5) (fsTotalExpenses cacheC5))
        = "Net Income,-100.00"
    ∧ fsOutput cacheC5
        = "Basic Financial Statement\n\nIncome Statement\nSales Revenue,-100.00\nCost of Goods Sold,0.00\nSalaries Expense,0.00\nRent Expense,0.00\nUtilities Expense,0.00\nInterest Expense,0.00\nTax Expense,0.00\nNet Income,-100.00\n\nBalance Sheet\nAssets\nCash,100.00\nAccounts Receivable,0.00\nInventory,0.00\nFixed Assets,0.00\nPrepaid Expenses,0.00\nTotal Assets,100.00\n\nLiabilities\nAccounts Payable,0.00\nLoan Payable,0.00\nSales Tax Payable,0.00\nAccrued Liabilities,0.00\nUnearned Revenue,0.00\nDividends Payable,0.00\nTotal Liabilities,0.00\n\nEquity\nCommon Stock,0.00\nRetained Earnings,0.00\nRetained Earnings (Net Income),-100.00\nTotal Equity,-100.00\n\nAssets = Liabilities + Equity, 100.00 = -100.00" := by
  refine ⟨by decide, by decide, by decide, by decide, by decide, by decide⟩

/-! ### Claim C9 -/

/-- C9 (amended): one run's outputs are a pure function of the loaded cache —
the `parsedFiles` left over from a previous run is discarded by `loadFiles`,
so two runs that observe the same cache produce byte-identical files; and
`fs.csv` is additionally byte-identical under any reordering of the cache
entries. -/
theorem pipeline_deterministic (st₁ st₂ : Cache) (cache : Cache) :
    generateAllReports st₁ cache = generateAllReports st₂ cache
    ∧ ∀ c₂ : Cache, c₂.Perm cache → (reportsOf c₂).fsCsv = (reportsOf cache).fsCsv := by
  constructor
  · rfl
  · intro c₂ hp
    show fsOutput c₂ = fsOutput cache
    have hrows : (allRowsExcept c₂ "fs.csv").Perm (allRowsExcept cache "fs.csv") := by
      rw [allRowsExcept, allRowsExcept]
      exact allRows_perm (hp.filter _)
    have hv : (fun a => fsLineVal (fsBalances c₂) a) = fun a => fsLineVal (fsBalances cache) a := by
      funext a
      rw [fsLineVal, fsLineVal, fsBalances_lookup, fsBalances_lookup]
      by_cases h : a ∈ taxonomyAccounts
      · rw [if_pos h, if_pos h]
        have : sumDebitCredit (allRowsExcept c₂ "fs.csv") a
            = sumDebitCredit (allRowsExcept cache "fs.csv") a := by
          rw [sumDebitCredit, sumDebitCredit]
          exact ((hrows.filter _).map _).sum_eq
        rw [this]
      · rw [if_neg h, if_neg h]
    show fsRender (fun a => fsLineVal (fsBalances c₂) a)
        = fsRender (fun a => fsLineVal (fsBalances cache) a)
    rw [hv]

/-- C9 witness: determinism evaluated on the two-file directory, and the
fs.csv reorder-invariance applied to the reversed cache. -/
theorem pipeline_deterministic_witness :
    cacheC9b.Perm cacheC9a
    ∧ (reportsOf cacheC9b).fsCsv = (reportsOf cacheC9a).fsCsv
    ∧ generateAllReports [] cacheC9a = generateAllReports [("x.csv", [])] cacheC9a := by
  refine ⟨by decide, (pipeline_deterministic [] [] cacheC9a).2 cacheC9b (by decide),
    (pipeline_deterministic [] [("x.csv", [])] cacheC9a).1⟩

/-- C9 counterexample: both cache orders are possible loads of the same
unchanged directory (the concurrent loader fixes no completion order), yet
the two accounts.csv outputs differ byte-wise, so byte-identical outputs
across two runs are not guaranteed. -/
theorem pipeline_idempotence_counterexample :
    possibleCacheOf dirC9 cacheC9a
    ∧ possibleCacheOf dirC9 cacheC9b
    ∧ (generateAllReports [] cacheC9a).1.accountsCsv = "Account,Balance\nA,1.00\nB,1.00"
    ∧ (generateAllReports [] cacheC9b).1.accountsCsv = "Account,Balance\nB,1.00\nA,1.00"
    ∧ (generateAllReports [] cacheC9a).1.accountsCsv
        ≠ (generateAllReports [] cacheC9b).1.accountsCsv := by
  refine ⟨by decide, by decide, by decide, by decide, by decide⟩

/-! ### Claim C7: the Record Parser -/

theorem dropWhile_append_split (p : Char → Bool) (l₁ l₂ : List Char) :
    List.dropWhile p (l₁ ++ l₂)
      = if (List.dropWhile p l₁).isEmpty then List.dropWhile p l₂
        else List.dropWhile p l₁ ++ l₂ := by
  induction l₁ with
  | nil => simp
  | cons c t ih =>
    by_cases h : p c
    · simp [List.dropWhile_cons, h, ih]
    · simp [List.dropWhile_cons, h]

theorem toList_append (s t : String) : (s ++ t).toList = s.toList ++ t.toList := by
  cases s
  cases t
  rfl

theorem trimList_append_newline (l : List Char) : trimList (l ++ ['\n']) = trimList l := by
  rw [trimList, trimList, dropWhile_append_split]
  rcases e : List.dropWhile isJsSpace l with _ | ⟨c, cs⟩
  · decide
  · have h1 : ((c :: cs : List Char).isEmpty) = false := rfl
    rw [h1, if_neg (by simp)]
    have h2 : ((c :: cs) ++ ['\n']).reverse = '\n' :: (c :: cs).reverse := by
      simp
    rw [h2, List.dropWhile_cons, if_pos (by decide)]

theorem parseContent_append_newline (s : String) : parseContent (s ++ "\n") = parseContent s := by
  rw [parseContent, parseContent, jsTrim, jsTrim, toList_append,
    show ("\n" : String).toList = ['\n'] from rfl, trimList_append_newline]

theorem jsTrim_eq_self (s : String) (h : noEdgeWhitespace s) : jsTrim s = s := by
  obtain ⟨h1, h2⟩ := h
  rw [jsTrim, trimList]
  have d1 : List.dropWhile isJsSpace s.toList = s.toList := by
    cases e : s.toList with
    | nil => rfl
    | cons c cs =>
      rw [e] at h1
      simp only [List.head?_cons, Option.all_some, Bool.not_eq_true'] at h1
      rw [List.dropWhile_cons, if_neg (by simp [h1])]
  rw [d1]
  have d2 : List.dropWhile isJsSpace s.toList.reverse = s.toList.reverse := by
    cases e : s.toList.reverse with
    | nil => rfl
    | cons c cs =>
      have hc : s.toList.getLast? = some c := by
        rw [← List.head?_reverse, e, List.head?_cons]
      rw [hc] at h2
      simp only [Option.all_some, Bool.not_eq_true'] at h2
      rw [List.dropWhile_cons, if_neg (by simp [h2])]
  rw [d2, List.reverse_reverse]
  cases s
  rfl

/-- C7 (amended): the Record Parser splits the trimmed content on `'\n'` and
each line on `','` with no per-field trimming — when the raw text has no
leading or trailing whitespace the rows are exactly the raw splits; a
trailing newline (blank last line) is removed by `trim()` and never
produces a row; but a file whose content trims to empty produces exactly one
row holding a single empty field (not zero rows). -/
theorem record_parsing (s : String) :
    parseContent (s ++ "\n") = parseContent s
    ∧ (jsTrim s = "" → parseContent s = [[""]])
    ∧ (noEdgeWhitespace s → parseContent s = (jsSplit s '\n').map (fun l => jsSplit l ',')) := by
  refine ⟨parseContent_append_newline s, ?_, ?_⟩
  · intro h
    rw [parseContent, h]
    decide
  · intro h
    rw [parseContent, jsTrim_eq_self s h]

/-- C7 witness: the amended theorem applied to concrete strings. -/
theorem record_parsing_witness :
    parseContent ("a,b" ++ "\n") = parseContent "a,b"
    ∧ (jsTrim " " = "" ∧ parseContent " " = [[""]])
    ∧ (noEdgeWhitespace "a,b"
        ∧ parseContent "a,b" = (jsSplit "a,b" '\n').map (fun l => jsSplit l ',')) := by
  have hedge : noEdgeWhitespace "a,b" := by
    constructor <;> decide
  exact ⟨(record_parsing "a,b").1,
    ⟨by decide, (record_parsing " ").2.1 (by decide)⟩,
    ⟨hedge, (record_parsing "a,b").2.2 hedge⟩⟩

/-- C7 counterexample: an empty file is not rowless — `"".trim().split('\n')`
is `[""]`, so the parser yields one row with a single empty field, which the
Account Balances job then reports as the account `undefined` with balance
0.00. -/
theorem record_parsing_counterexample :
    parseContent "" = [[""]]
    ∧ parseContent "" ≠ []
    ∧ accountsOutput [("a.csv", parseContent "")] = "Account,Balance\nundefined,0.00" := by
  refine ⟨by decide, by decide, by decide⟩

/-! ### Claim C8: the status query -/

/-- C8 (confirmed, with the request-layer validation modelled from the spec):
for each of the three job names the status query returns that job's current
status string; any other name is reported as a usage error; and the query
never changes the service state. -/
theorem status_query_contract (st : JobStates) (name : String) :
    (name = "accounts" → statusQuery st name = (Except.ok st.accounts, st))
    ∧ (name = "yearly" → statusQuery st name = (Except.ok st.yearly, st))
    ∧ (name = "fs" → statusQuery st name = (Except.ok st.fs, st))
    ∧ (name ≠ "accounts" → name ≠ "yearly" → name ≠ "fs" →
        (statusQuery st name).1 = Except.error ("unknown job name: " ++ name))
    ∧ (statusQuery st name).2 = st := by
  refine ⟨?_, ?_, ?_, ?_, ?_⟩
  · intro h
    simp [statusQuery, h, stateOf]
  · intro h
    subst h
    simp [statusQuery, stateOf]
  · intro h
    subst h
    simp [statusQuery, stateOf]
  · intro h1 h2 h3
    simp [statusQuery, h1, h2, h3]
  · rw [statusQuery]
    split_ifs <;> rfl

/-- C8 witness: the contract evaluated on the initial state with a valid and
an invalid job name. -/
theorem status_query_contract_witness :
    statusQuery ⟨"idle", "idle", "idle"⟩ "accounts" = (Except.ok "idle", ⟨"idle", "idle", "idle"⟩)
    ∧ (statusQuery ⟨"idle", "idle", "idle"⟩ "bogus").1
        = Except.error ("unknown job name: " ++ "bogus") := by
  exact ⟨(status_query_contract ⟨"idle", "idle", "idle"⟩ "accounts").1 rfl,
    (status_query_contract ⟨"idle", "idle", "idle"⟩ "bogus").2.2.2.1
      (by decide) (by decide) (by decide)⟩

/-! ### Claim C6: load phase strictly before the report fan-out -/

theorem interleave_mem {xs ys zs : List RunEvent} (h : Interleave xs ys zs) :
    ∀ e ∈ zs, e ∈ xs ∨ e ∈ ys := by
  induction h with
  | nil =>
    intro e he
    simp at he
  | left h ih =>
    intro e he
    rcases List.mem_cons.1 he with rfl | he'
    · exact Or.inl (List.mem_cons_self _ _)
    · rcases ih e he' with h' | h'
      · exact Or.inl (List.mem_cons_of_mem _ h')
      · exact Or.inr h'
  | right h ih =>
    intro e he
    rcases List.mem_cons.1 he with rfl | he'
    · exact Or.inr (List.mem_cons_self _ _)
    · rcases ih e he' with h' | h'
      · exact Or.inl h'
      · exact Or.inr (List.mem_cons_of_mem _ h')

theorem interleave_append (xs ys : List RunEvent) : Interleave xs ys (xs ++ ys) := by
  induction xs with
  | nil =>
    induction ys with
    | nil => exact Interleave.nil
    | cons y t ih => exact Interleave.right ih
  | cons x t ih => exact Interleave.left ih

/-- C6 (confirmed): in every schedule the orchestrator can produce —
`await loadFiles()` strictly before `Promise.all` of the three jobs — every
file-load event precedes every report-job event positionally, and every
cache read a job performs observes the fully loaded cache, never a partially
populated one. -/
theorem load_before_reports (dir : List (String × String)) (t : List RunEvent)
    (h : possibleRunTrace dir t) :
    (∀ (i j : ℕ) (e₁ e₂ : RunEvent), t.get? i = some e₁ → e₁.isLoad = true →
        t.get? j = some e₂ → e₂.isJobEvent = true → i < j)
    ∧ (∀ (jb : String) (c : Cache), RunEvent.cacheRead jb c ∈ t → c = loadCache dir) := by
  obtain ⟨l, u, v, hl, hu, hv, rfl⟩ := h
  have hload : ∀ e ∈ l, e.isLoad = true := by
    intro e he
    have hm := hl.mem_iff.1 he
    rw [List.mem_map] at hm
    obtain ⟨x, _, rfl⟩ := hm
    rfl
  have hjobu : ∀ e ∈ u, e.isJobEvent = true := by
    intro e he
    rcases interleave_mem hu e he with h' | h' <;>
      · simp only [jobTrace, List.mem_cons, List.not_mem_nil, or_false] at h'
        rcases h' with rfl | rfl | rfl <;> rfl
  have hjobv : ∀ e ∈ v, e.isJobEvent = true := by
    intro e he
    rcases interleave_mem hv e he with h' | h'
    · exact hjobu e h'
    · simp only [jobTrace, List.mem_cons, List.not_mem_nil, or_false] at h'
      rcases h' with rfl | rfl | rfl <;> rfl
  have hnotloadv : ∀ e ∈ v, e.isLoad = false := by
    intro e he
    have := hjobv e he
    cases e <;> simp_all [RunEvent.isJobEvent, RunEvent.isLoad]
  constructor
  · intro i j e₁ e₂ hi hload₁ hj hjob₂
    have hi_lt : i < l.length := by
      by_contra hle
      push_neg at hle
      rw [List.get?_append_right hle] at hi
      have hmem : e₁ ∈ v := List.get?_mem hi
      rw [hnotloadv e₁ hmem] at hload₁
      exact Bool.noConfusion hload₁
    have hj_ge : l.length ≤ j := by
      by_contra hlt
      push_neg at hlt
      rw [List.get?_append hlt] at hj
      have he₂l : e₂ ∈ l := List.get?_mem hj
      have h1 := hload e₂ he₂l
      cases e₂ <;> simp_all [RunEvent.isLoad, RunEvent.isJobEvent]
    omega
  · intro jb c hmem
    rcases List.mem_append.1 hmem with h' | h'
    · have := hload _ h'
      simp [RunEvent.isLoad] at this
    · have hshape : ∀ jx, RunEvent.cacheRead jb c ∈ jobTrace jx (loadCache dir) →
          c = loadCache dir := by
        intro jx hx
        simp only [jobTrace, List.mem_cons, List.not_mem_nil, or_false] at hx
        rcases hx with hx | hx | hx
        · exact absurd hx (by simp)
        · injection hx with h5 h6
        · exact absurd hx (by simp)
      rcases interleave_mem hv _ h' with h'' | h''
      · rcases interleave_mem hu _ h'' with h3 | h3
        · exact hshape "accounts" h3
        · exact hshape "yearly" h3
      · exact hshape "fs" h''

/-- C6 witness: a concrete one-file run trace, with the first load event
preceding the first job event. -/
theorem load_before_reports_witness :
    possibleRunTrace dirC6 traceC6
    ∧ traceC6.get? 0 = some (RunEvent.fileLoaded "a.csv")
    ∧ traceC6.get? 1 = some (RunEvent.jobStarted "accounts")
    ∧ (0 : ℕ) < 1 := by
  have hperm : ([RunEvent.fileLoaded "a.csv"] : List RunEvent).Perm
      ((loadCache dirC6).map (fun e => RunEvent.fileLoaded e.1)) := by
    rw [show (loadCache dirC6).map (fun e => RunEvent.fileLoaded e.1)
      = [RunEvent.fileLoaded "a.csv"] from by decide]
  have hpos : possibleRunTrace dirC6 traceC6 :=
    ⟨[RunEvent.fileLoaded "a.csv"],
     jobTrace "accounts" (loadCache dirC6) ++ jobTrace "yearly" (loadCache dirC6),
     (jobTrace "accounts" (loadCache dirC6) ++ jobTrace "yearly" (loadCache dirC6))
       ++ jobTrace "fs" (loadCache dirC6),
     hperm, interleave_append _ _, interleave_append _ _, by
      rw [traceC6, List.append_assoc]⟩
  exact ⟨hpos, rfl, rfl,
    (load_before_reports dirC6 traceC6 hpos).1 0 1
      (RunEvent.fileLoaded "a.csv") (RunEvent.jobStarted "accounts") rfl rfl rfl rfl⟩

/-! ### Claim C4: decimal rendering and the string sort on year keys -/

theorem toList_mk (l : List Char) : (String.mk l).toList = l := rfl

theorem natDigitsAux_zero (f : ℕ) (acc : List Char) : natDigitsAux f 0 acc = acc := by
  cases f <;> rfl

theorem natDigitsAux_congr_fuel :
    ∀ (f₁ : ℕ), ∀ (f₂ n : ℕ) (acc : List Char), n ≤ f₁ → n ≤ f₂ →
      natDigitsAux f₁ n acc = natDigitsAux f₂ n acc := by
  intro f₁
  induction f₁ with
  | zero =>
    intro f₂ n acc h1 _
    have : n = 0 := by omega
    subst this
    rw [natDigitsAux_zero, natDigitsAux_zero]
  | succ a ih =>
    intro f₂ n acc h1 h2
    by_cases hn : n = 0
    · subst hn
      rw [natDigitsAux_zero, natDigitsAux_zero]
    · cases f₂ with
      | zero => omega
      | succ b =>
        show (if n = 0 then acc else natDigitsAux a (n / 10) (digitChar (n % 10) :: acc))
          = (if n = 0 then acc else natDigitsAux b (n / 10) (digitChar (n % 10) :: acc))
        rw [if_neg hn, if_neg hn]
        exact ih b (n / 10) _ (by omega) (by omega)

theorem natDigitsAux_unfold (f n : ℕ) (acc : List Char) (hn : n ≠ 0) (hf : n ≤ f) :
    natDigitsAux f n acc = natDigitsAux (n / 10) (n / 10) (digitChar (n % 10) :: acc) := by
  cases f with
  | zero => omega
  | succ a =>
    show (if n = 0 then acc else natDigitsAux a (n / 10) (digitChar (n % 10) :: acc))
      = natDigitsAux (n / 10) (n / 10) (digitChar (n % 10) :: acc)
    rw [if_neg hn]
    exact natDigitsAux_congr_fuel a (n / 10) (n / 10) _ (by omega) (le_refl _)

theorem natDecimal_four_digits (n : ℕ) (h1 : 1000 ≤ n) (h2 : n ≤ 9999) :
    natDecimal n
      = ⟨[digitChar (n / 1000), digitChar (n / 100 % 10),
          digitChar (n / 10 % 10), digitChar (n % 10)]⟩ := by
  rw [natDecimal, if_neg (by omega)]
  rw [natDigitsAux_unfold n n [] (by omega) (le_refl n)]
  rw [natDigitsAux_unfold _ _ _ (by omega) (le_refl _)]
  rw [natDigitsAux_unfold _ _ _ (by omega) (le_refl _)]
  rw [natDigitsAux_unfold _ _ _ (by omega) (le_refl _)]
  have hz : n / 10 / 10 / 10 / 10 = 0 := by omega
  rw [hz, natDigitsAux_zero]
  have e2 : n / 10 / 10 = n / 100 := by omega
  rw [e2]
  have e3 : n / 100 / 10 % 10 = n / 1000 := by omega
  rw [e3]

theorem digitChar_toNat (d : ℕ) (h : d ≤ 9) : (digitChar d).toNat = 48 + d := by
  interval_cases d <;> decide

theorem strLt_digits (a b : ℕ) (ha1 : 1000 ≤ a) (ha2 : a ≤ 9999)
    (hb1 : 1000 ≤ b) (hb2 : b ≤ 9999) :
    (strLtB (natDecimal a).toList (natDecimal b).toList = true) ↔ a < b := by
  rw [natDecimal_four_digits a ha1 ha2, natDecimal_four_digits b hb1 hb2, toList_mk, toList_mk]
  have da3 := digitChar_toNat (a / 1000) (by omega)
  have da2 := digitChar_toNat (a / 100 % 10) (by omega)
  have da1 := digitChar_toNat (a / 10 % 10) (by omega)
  have da0 := digitChar_toNat (a % 10) (by omega)
  have db3 := digitChar_toNat (b / 1000) (by omega)
  have db2 := digitChar_toNat (b / 100 % 10) (by omega)
  have db1 := digitChar_toNat (b / 10 % 10) (by omega)
  have db0 := digitChar_toNat (b % 10) (by omega)
  simp only [strLtB, da3, da2, da1, da0, db3, db2, db1, db0]
  split_ifs <;> simp_all <;> omega

theorem strLtB_irrefl (l : List Char) : strLtB l l = false := by
  induction l with
  | nil => rfl
  | cons c t ih => simp [strLtB, ih]

theorem strLe_intDecimal (a b : ℤ) (ha1 : 1000 ≤ a) (ha2 : a ≤ 9999)
    (hb1 : 1000 ≤ b) (hb2 : b ≤ 9999) :
    (strLeB (intDecimal a) (intDecimal b) = true) ↔ a ≤ b := by
  rw [intDecimal, if_neg (by omega), intDecimal, if_neg (by omega), strLeB]
  have h := strLt_digits b.toNat a.toNat (by omega) (by omega) (by omega) (by omega)
  constructor
  · intro hf
    by_contra hab
    have hba : b.toNat < a.toNat := by omega
    rw [h.2 hba] at hf
    exact Bool.noConfusion hf
  · intro hab
    cases e : strLtB (natDecimal b.toNat).toList (natDecimal a.toNat).toList with
    | false => rfl
    | true =>
      have := h.1 e
      omega

theorem intDecimal_inj_range (a b : ℤ) (ha1 : 1000 ≤ a) (ha2 : a ≤ 9999)
    (hb1 : 1000 ≤ b) (hb2 : b ≤ 9999) (h : intDecimal a = intDecimal b) : a = b := by
  have h1 : strLeB (intDecimal a) (intDecimal b) = true := by
    rw [h, strLeB, strLtB_irrefl]
    rfl
  have h2 : strLeB (intDecimal b) (intDecimal a) = true := by
    rw [h, strLeB, strLtB_irrefl]
    rfl
  have := (strLe_intDecimal a b ha1 ha2 hb1 hb2).1 h1
  have := (strLe_intDecimal b a hb1 hb2 ha1 ha2).1 h2
  omega

theorem mem_insertInt (x z : ℤ) (l : List ℤ) : z ∈ insertInt x l ↔ z = x ∨ z ∈ l := by
  induction l with
  | nil => simp [insertInt]
  | cons y t ih =>
    rw [insertInt]
    by_cases h : x ≤ y
    · rw [if_pos h]
      simp [List.mem_cons]
    · rw [if_neg h]
      simp only [List.mem_cons, ih]
      tauto

theorem mem_sortInts (z : ℤ) (l : List ℤ) : z ∈ sortInts l ↔ z ∈ l := by
  induction l with
  | nil => exact Iff.rfl
  | cons x t ih =>
    show z ∈ insertInt x (sortInts t) ↔ _
    rw [mem_insertInt]
    simp only [List.mem_cons, ih]

theorem insertStr_map_intDecimal (x : ℤ) (l : List ℤ)
    (hx : 1000 ≤ x ∧ x ≤ 9999) (hl : ∀ z ∈ l, 1000 ≤ z ∧ z ≤ 9999) :
    insertStr (intDecimal x) (l.map intDecimal) = (insertInt x l).map intDecimal := by
  induction l with
  | nil => rfl
  | cons y t ih =>
    have hy := hl y (List.mem_cons_self y t)
    have ht : ∀ z ∈ t, 1000 ≤ z ∧ z ≤ 9999 := fun z hz => hl z (List.mem_cons_of_mem y hz)
    rw [List.map_cons, insertStr, insertInt]
    by_cases hxy : x ≤ y
    · rw [if_pos ((strLe_intDecimal x y hx.1 hx.2 hy.1 hy.2).2 hxy), if_pos hxy]
      rfl
    · have hne : ¬ (strLeB (intDecimal x) (intDecimal y) = true) := by
        intro hc
        exact hxy ((strLe_intDecimal x y hx.1 hx.2 hy.1 hy.2).1 hc)
      rw [if_neg hne, if_neg hxy, List.map_cons, ih ht]

theorem sortStrings_map_intDecimal (l : List ℤ) (hl : ∀ z ∈ l, 1000 ≤ z ∧ z ≤ 9999) :
    sortStrings (l.map intDecimal) = (sortInts l).map intDecimal := by
  induction l with
  | nil => rfl
  | cons x t ih =>
    show insertStr (intDecimal x) (sortStrings (t.map intDecimal))
      = (insertInt x (sortInts t)).map intDecimal
    rw [ih (fun z hz => hl z (List.mem_cons_of_mem x hz))]
    exact insertStr_map_intDecimal x (sortInts t) (hl x (List.mem_cons_self x t))
      (fun z hz => hl z (List.mem_cons_of_mem x ((mem_sortInts z t).1 hz)))

theorem dedupFirstAux_map_intDecimal :
    ∀ (l seen : List ℤ),
      (∀ x ∈ l, 1000 ≤ x ∧ x ≤ 9999) → (∀ y ∈ seen, 1000 ≤ y ∧ y ≤ 9999) →
      dedupFirstAux (seen.map intDecimal) (l.map intDecimal)
        = (dedupFirstAux seen l).map intDecimal := by
  intro l
  induction l with
  | nil =>
    intro seen _ _
    rfl
  | cons x t ih =>
    intro seen hl hs
    have hx := hl x (List.mem_cons_self x t)
    have ht : ∀ z ∈ t, 1000 ≤ z ∧ z ≤ 9999 := fun z hz => hl z (List.mem_cons_of_mem x hz)
    rw [List.map_cons]
    by_cases hmem : x ∈ seen
    · rw [dedupFirstAux, if_pos (List.mem_map_of_mem _ hmem), dedupFirstAux, if_pos hmem]
      exact ih seen ht hs
    · have hmem' : intDecimal x ∉ seen.map intDecimal := by
        intro hc
        rw [List.mem_map] at hc
        obtain ⟨y, hy, hxy⟩ := hc
        have hyr := hs y hy
        have := intDecimal_inj_range y x hyr.1 hyr.2 hx.1 hx.2 hxy
        exact hmem (this ▸ hy)
      rw [dedupFirstAux, if_neg hmem', dedupFirstAux, if_neg hmem, List.map_cons]
      congr 1
      have hseen : (x :: seen).map intDecimal = intDecimal x :: seen.map intDecimal := rfl
      rw [← hseen]
      refine ih (x :: seen) ht ?_
      intro y hy
      rcases List.mem_cons.1 hy with rfl | hy'
      · exact hx
      · exact hs y hy'

theorem cashByYearOf_eq_foldRows (cache : Cache) :
    cashByYearOf cache = (allRowsExcept cache "yearly.csv").foldl yearlyStep [] := by
  rw [cashByYearOf]
  generalize ([] : List (String × JsNum)) = m
  induction cache generalizing m with
  | nil => rfl
  | cons e t ih =>
    rw [List.foldl_cons, allRowsExcept_cons]
    by_cases h : e.1 = "yearly.csv"
    · rw [if_pos h, if_pos h, ih]
    · rw [if_neg h, if_neg h, List.foldl_append, ih]

theorem yearlyFold_eq_bumpFold (rows : List (List String)) :
    ∀ m, rows.foldl yearlyStep m
      = (rows.filter (fun r => acct r = "Cash")).foldl
          (fun m r => bump m (yearKey (r.getD 0 "")) (rowDC r)) m := by
  induction rows with
  | nil =>
    intro m
    rfl
  | cons r rs ih =>
    intro m
    rw [List.foldl_cons]
    by_cases h : acct r = "Cash"
    · have hf : (r :: rs).filter (fun r => acct r = "Cash")
          = r :: rs.filter (fun r => acct r = "Cash") := by
        simp [List.filter_cons, h]
      rw [hf, List.foldl_cons, yearlyStep, if_pos h, ih]
    · have hf : (r :: rs).filter (fun r => acct r = "Cash")
          = rs.filter (fun r => acct r = "Cash") := by
        simp [List.filter_cons, h]
      rw [hf, yearlyStep, if_neg h, ih]

theorem cashByYearOf_keys (cache : Cache) :
    (cashByYearOf cache).map Prod.fst
      = dedupFirst (((allRowsExcept cache "yearly.csv").filter (fun r => acct r = "Cash")).map
          (fun r => yearKey (r.getD 0 ""))) := by
  rw [cashByYearOf_eq_foldRows, yearlyFold_eq_bumpFold]
  have h := bumpFold_keys (fun r => yearKey (r.getD 0 "")) rowDC
    ((allRowsExcept cache "yearly.csv").filter (fun r => acct r = "Cash")) []
  simpa [dedupFirst] using h

theorem map_yearKey (rows : List (List String))
    (h : ∀ r ∈ rows, ∃ y, dateYear (r.getD 0 "") = some y) :
    rows.map (fun r => yearKey (r.getD 0 ""))
      = (rows.filterMap (fun r => dateYear (r.getD 0 ""))).map intDecimal := by
  induction rows with
  | nil => rfl
  | cons r rs ih =>
    obtain ⟨y, hy⟩ := h r (List.mem_cons_self r rs)
    have h1 : (r :: rs).filterMap (fun r => dateYear (r.getD 0 ""))
        = y :: rs.filterMap (fun r => dateYear (r.getD 0 "")) := by
      rw [List.filterMap_cons, hy]
    rw [List.map_cons, h1, List.map_cons,
      show yearKey (r.getD 0 "") = intDecimal y from by rw [yearKey, hy],
      ih (fun x hx => h x (List.mem_cons_of_mem r hx))]

theorem yearOk_spec (r : List String) (h : yearOk r = true) :
    ∃ y, dateYear (r.getD 0 "") = some y ∧ 1000 ≤ y ∧ y ≤ 9999 := by
  have h' : (match dateYear (r.getD 0 "") with
      | some y => decide (1000 ≤ y) && decide (y ≤ 9999)
      | none => false) = true := h
  cases e : dateYear (r.getD 0 "") with
  | none =>
    rw [e] at h'
    exact absurd h' (by simp)
  | some y =>
    rw [e] at h'
    simp only [Bool.and_eq_true, decide_eq_true_eq] at h'
    exact ⟨y, rfl, h'.1, h'.2⟩

theorem cashYears_range (cache : Cache)
    (h : ∀ r ∈ allRowsExcept cache "yearly.csv", acct r = "Cash" → yearOk r = true) :
    ∀ y ∈ cashYears cache, 1000 ≤ y ∧ y ≤ 9999 := by
  intro y hy
  rw [cashYears, List.mem_filterMap] at hy
  obtain ⟨r, hr, hry⟩ := hy
  have hrc := List.mem_filter.1 hr
  have hok := h r hrc.1 (by simpa using hrc.2)
  obtain ⟨y', hy', h1, h2⟩ := yearOk_spec r hok
  have : y' = y := Option.some.inj (hy'.symm.trans hry)
  subst this
  exact ⟨h1, h2⟩

/-- C4 (amended): provided every Cash row's date parses to a four-digit year
(1000-9999), the Yearly Cash Flow output is the header followed by exactly
one data row per distinct year of the Cash rows, in ascending numeric year
order (years with no Cash rows are omitted); in general the rows are in
ascending lexicographic order of the year key, which for equal-length keys
coincides with numeric order. -/
theorem yearly_rows_sorted (cache : Cache)
    (h : ∀ r ∈ allRowsExcept cache "yearly.csv", acct r = "Cash" → yearOk r = true) :
    yearlyOutput cache = specYearlyOutput cache := by
  have hcash : ∀ r ∈ (allRowsExcept cache "yearly.csv").filter (fun r => acct r = "Cash"),
      ∃ y, dateYear (r.getD 0 "") = some y := by
    intro r hr
    have hrc := List.mem_filter.1 hr
    obtain ⟨y, hy, _, _⟩ := yearOk_spec r (h r hrc.1 (by simpa using hrc.2))
    exact ⟨y, hy⟩
  have hrange := cashYears_range cache h
  have hkeys : sortStrings ((cashByYearOf cache).map Prod.fst)
      = (specYears cache).map intDecimal := by
    rw [cashByYearOf_keys, map_yearKey _ hcash]
    rw [show ((allRowsExcept cache "yearly.csv").filter
        (fun r => acct r = "Cash")).filterMap (fun r => dateYear (r.getD 0 ""))
      = cashYears cache from rfl]
    rw [show dedupFirst ((cashYears cache).map intDecimal)
        = (dedupFirst (cashYears cache)).map intDecimal from
      dedupFirstAux_map_intDecimal (cashYears cache) [] hrange (by intro y hy; simp at hy)]
    rw [sortStrings_map_intDecimal (dedupFirst (cashYears cache))
      (fun z hz => hrange z ((mem_dedupFirstAux [] (cashYears cache) z).1 hz).1)]
    rfl
  rw [yearlyOutput, specYearlyOutput, hkeys, List.map_map]
  rfl

/-- C4 witness: the amended theorem evaluated on a cache with Cash rows in
2023 and 2021, producing the rows in ascending year order. -/
theorem yearly_rows_sorted_witness :
    (∀ r ∈ allRowsExcept cacheC4w "yearly.csv", acct r = "Cash" → yearOk r = true)
    ∧ yearlyOutput cacheC4w = "Financial Year,Cash Balance\n2021,1.00\n2023,5.00" := by
  have hok : ∀ r ∈ allRowsExcept cacheC4w "yearly.csv", acct r = "Cash" → yearOk r = true := by
    decide
  exact ⟨hok, (yearly_rows_sorted cacheC4w hok).trans (by decide)⟩

/-- C4 counterexample: Cash rows dated 0999-01-01 and 1000-01-01 — the
string sort puts key "1000" before "999", so the output is not ascending by
year as the claim states. -/
theorem yearly_sort_counterexample :
    yearlyOutput cacheC4 = "Financial Year,Cash Balance\n1000,2.00\n999,1.00"
    ∧ specYearlyOutput cacheC4 = "Financial Year,Cash Balance\n999,1.00\n1000,2.00"
    ∧ yearlyOutput cacheC4 ≠ specYearlyOutput cacheC4 := by
  refine ⟨by decide, by decide, by decide⟩

end Acme
